import Mathlib

/-!
Verification development for the dependency version resolution engine of the
`sparse-crates` extension.  The TypeScript sources under `src/core` are shallowly
embedded: machine-level buffers become `List Nat`, JavaScript objects become
structures, nullable values become `Option`, and thrown errors become `Except`.
External collaborators (the `semver` library's comparison/parsing routines, which
the code calls with fixed default options) are embedded from their documented
strict-mode semantics, since the code's observable behaviour depends on them.
-/

namespace SparseCrates

/-- Prerelease identifier of a semantic version: the `semver` library stores an
all-digit identifier as a number and any other identifier as a string. -/
inductive PreId where
  | num (n : Nat)
  | str (s : String)
deriving DecidableEq, Repr

/-- A parsed semantic version (`semver.SemVer`): numeric `major.minor.patch`,
prerelease identifier list and build identifier list. -/
structure SemVer where
  major : Nat
  minor : Nat
  patch : Nat
  prerelease : List PreId
  build : List String
deriving DecidableEq, Repr

/-- Three-way comparison on naturals, returning `-1`, `0` or `1` like the
JavaScript comparison helpers. -/
def cmpN (a b : Nat) : Int :=
  if a < b then -1 else if b < a then 1 else 0

/-- Matching of `^[0-9]+$` (the `numeric` regex of the semver library). -/
def isNumericStr (s : String) : Bool :=
  !s.data.isEmpty && s.data.all Char.isDigit

/-- Numeric value of a digit string. -/
def natOfDigits (cs : List Char) : Nat :=
  cs.foldl (fun n c => 10 * n + (c.toNat - 48)) 0

/-- Embedding of `compareIdentifiers` of the semver library on two raw (string) identifiers:
numeric identifiers compare numerically, numeric sorts before alphanumeric,
otherwise code-unit string order. -/
def cmpIdsStr (a b : String) : Int :=
  if isNumericStr a && isNumericStr b then cmpN (natOfDigits a.data) (natOfDigits b.data)
  else if a = b then 0
  else if isNumericStr a then -1
  else if isNumericStr b then 1
  else if a < b then -1 else 1

/-- Embedding of `compareIdentifiers` applied to stored prerelease identifiers (numbers or
strings). -/
def cmpPreId : PreId → PreId → Int
  | .num a, .num b => cmpN a b
  | .num a, .str s => if isNumericStr s then cmpN a (natOfDigits s.data) else -1
  | .str s, .num b => if isNumericStr s then cmpN (natOfDigits s.data) b else 1
  | .str s, .str t => cmpIdsStr s t

/-- The identifier-by-identifier loop of `SemVer.comparePre`: identical
identifiers are skipped, a missing identifier sorts first. -/
def cmpPreList : List PreId → List PreId → Int
  | [], [] => 0
  | [], _ :: _ => -1
  | _ :: _, [] => 1
  | a :: as, b :: bs => if a = b then cmpPreList as bs else cmpPreId a b

/-- Embedding of `SemVer.comparePre`: a version with a prerelease sorts before the same
version without one; otherwise identifiers are compared pairwise. -/
def comparePre (a b : List PreId) : Int :=
  match a, b with
  | _ :: _, [] => -1
  | [], _ :: _ => 1
  | [], [] => 0
  | _ :: _, _ :: _ => cmpPreList a b

/-- Embedding of `SemVer.compareMain`: lexicographic comparison of `major.minor.patch`. -/
def compareMain (a b : SemVer) : Int :=
  if cmpN a.major b.major ≠ 0 then cmpN a.major b.major
  else if cmpN a.minor b.minor ≠ 0 then cmpN a.minor b.minor
  else cmpN a.patch b.patch

/-- Embedding of `SemVer.compare`: main components first, then prerelease. Build metadata is
ignored. -/
def semverCompare (a b : SemVer) : Int :=
  if compareMain a b ≠ 0 then compareMain a b
  else comparePre a.prerelease b.prerelease

/-- The build-identifier loop of `SemVer.compareBuild`: identical identifiers
are skipped, a missing identifier sorts first. -/
def cmpBuildList : List String → List String → Int
  | [], [] => 0
  | [], _ :: _ => -1
  | _ :: _, [] => 1
  | a :: as, b :: bs => if a = b then cmpBuildList as bs else cmpIdsStr a b

/-- Embedding of `semver.compareBuild`: ordinary comparison refined by build metadata. -/
def semverCompareBuild (a b : SemVer) : Int :=
  if semverCompare a b ≠ 0 then semverCompare a b
  else cmpBuildList a.build b.build

/-! ### Basic order facts about the comparison functions -/

theorem cmpN_refl (a : Nat) : cmpN a a = 0 := by simp [cmpN]

theorem cmpN_flip (a b : Nat) : cmpN a b = -cmpN b a := by
  unfold cmpN; split_ifs <;> omega

theorem cmpN_le_iff (a b : Nat) : cmpN a b ≤ 0 ↔ a ≤ b := by
  unfold cmpN; split_ifs <;> constructor <;> intro h <;> omega

theorem cmpN_lt_iff (a b : Nat) : cmpN a b < 0 ↔ a < b := by
  unfold cmpN; split_ifs <;> constructor <;> intro h <;> omega

theorem cmpN_eq_zero_iff (a b : Nat) : cmpN a b = 0 ↔ a = b := by
  unfold cmpN
  split_ifs with h1 h2
  · constructor
    · intro h
      exact absurd h (by norm_num)
    · intro h
      omega
  · constructor
    · intro h
      exact absurd h (by norm_num)
    · intro h
      omega
  · constructor
    · intro h
      omega
    · intro h
      rfl

theorem cmpN_trans {a b c : Nat} (h1 : cmpN a b ≤ 0) (h2 : cmpN b c ≤ 0) :
    cmpN a c ≤ 0 := by
  rw [cmpN_le_iff] at h1 h2 ⊢; omega

theorem cmpIdsStr_refl (a : String) : cmpIdsStr a a = 0 := by
  unfold cmpIdsStr
  by_cases h : isNumericStr a = true <;> simp [h, cmpN_refl]

theorem cmpIdsStr_flip (a b : String) : cmpIdsStr a b = -cmpIdsStr b a := by
  unfold cmpIdsStr
  by_cases han : isNumericStr a = true <;>
    by_cases hbn : isNumericStr b = true <;>
      simp only [han, hbn, Bool.and_self, Bool.and_false, Bool.false_and,
        Bool.and_true, Bool.true_and, if_true, if_false]
  · rw [cmpN_flip]
  · rcases eq_or_ne a b with h | h
    · simp [h]
    · simp [h, h.symm]
  · rcases eq_or_ne a b with h | h
    · simp [h]
    · simp [h, h.symm]
  · rcases eq_or_ne a b with h | h
    · simp [h]
    · rcases lt_trichotomy a b with hlt | heq | hgt
      · simp [h, h.symm, hlt, not_lt_of_lt hlt]
      · exact absurd heq h
      · simp [h, h.symm, hgt, not_lt_of_lt hgt]

/-- A string equal to a numeric string is itself numeric. -/
theorem isNumericStr_congr {a b : String} (h : a = b) :
    isNumericStr a = isNumericStr b := by rw [h]

/-- Well-formedness of a stored prerelease identifier: the semver constructor
converts every all-digit identifier to a number, so a string identifier is
never numeric. -/
def preIdWf : PreId → Bool
  | .num _ => true
  | .str s => !isNumericStr s

/-- Well-formedness of a version as produced by the semver constructor. -/
def semverWf (v : SemVer) : Bool :=
  v.prerelease.all preIdWf

/-- On two non-numeric identifiers, `cmpIdsStr` is plain code-unit order. -/
theorem cmpIdsStr_nonnum {a b : String}
    (ha : isNumericStr a = false) (hb : isNumericStr b = false) :
    cmpIdsStr a b = if a = b then 0 else if a < b then -1 else 1 := by
  unfold cmpIdsStr
  rw [ha, hb]
  simp

theorem cmpIdsStr_nonnum_trans {a b c : String}
    (ha : isNumericStr a = false) (hb : isNumericStr b = false)
    (hc : isNumericStr c = false)
    (h1 : cmpIdsStr a b ≤ 0) (h2 : cmpIdsStr b c ≤ 0) : cmpIdsStr a c ≤ 0 := by
  rw [cmpIdsStr_nonnum ha hb] at h1
  rw [cmpIdsStr_nonnum hb hc] at h2
  rw [cmpIdsStr_nonnum ha hc]
  rcases eq_or_ne a b with hab | hab
  · subst hab; exact h2
  · simp only [hab, if_false] at h1
    rcases eq_or_ne b c with hbc | hbc
    · subst hbc; simp only [hab, if_false]; exact h1
    · simp only [hbc, if_false] at h2
      have hab' : a < b := by
        by_cases h : a < b
        · exact h
        · rw [if_neg h] at h1; omega
      have hbc' : b < c := by
        by_cases h : b < c
        · exact h
        · rw [if_neg h] at h2; omega
      have hac : a < c := lt_trans hab' hbc'
      simp [ne_of_lt hac, hac]

theorem cmpIdsStr_nonnum_eq_zero {a b : String}
    (ha : isNumericStr a = false) (hb : isNumericStr b = false)
    (h : cmpIdsStr a b = 0) : a = b := by
  rw [cmpIdsStr_nonnum ha hb] at h
  rcases eq_or_ne a b with hab | hab
  · exact hab
  · rw [if_neg hab] at h
    split_ifs at h <;> omega

theorem cmpPreId_refl (x : PreId) : cmpPreId x x = 0 := by
  cases x with
  | num n => simp [cmpPreId, cmpN_refl]
  | str s => simp [cmpPreId, cmpIdsStr_refl]

theorem cmpPreId_flip (x y : PreId) : cmpPreId x y = -cmpPreId y x := by
  cases x <;> cases y <;> simp only [cmpPreId]
  · rw [cmpN_flip]
  · split_ifs with h
    · rw [cmpN_flip]
    · norm_num
  · split_ifs with h
    · rw [cmpN_flip]
    · norm_num
  · rw [cmpIdsStr_flip]

theorem cmpPreId_wf_trans {x y z : PreId}
    (hx : preIdWf x = true) (hy : preIdWf y = true) (hz : preIdWf z = true)
    (h1 : cmpPreId x y ≤ 0) (h2 : cmpPreId y z ≤ 0) : cmpPreId x z ≤ 0 := by
  cases x with
  | num a =>
    cases z with
    | num c =>
      cases y with
      | num b => exact cmpN_trans h1 h2
      | str s =>
        have hs : isNumericStr s = false := by
          simpa [preIdWf] using hy
        simp [cmpPreId, hs] at h2
    | str u =>
      have hu : isNumericStr u = false := by
        simpa [preIdWf] using hz
      simp [cmpPreId, hu]
  | str s =>
    have hs : isNumericStr s = false := by
      simpa [preIdWf] using hx
    cases y with
    | num b => simp [cmpPreId, hs] at h1
    | str t =>
      have ht : isNumericStr t = false := by
        simpa [preIdWf] using hy
      cases z with
      | num c => simp [cmpPreId, ht] at h2
      | str u =>
        have hu : isNumericStr u = false := by
          simpa [preIdWf] using hz
        simp only [cmpPreId] at h1 h2 ⊢
        exact cmpIdsStr_nonnum_trans hs ht hu h1 h2

theorem cmpPreId_wf_eq_zero {x y : PreId}
    (hx : preIdWf x = true) (hy : preIdWf y = true)
    (h : cmpPreId x y = 0) : x = y := by
  cases x with
  | num a =>
    cases y with
    | num b =>
      simp only [cmpPreId] at h
      rw [cmpN_eq_zero_iff] at h
      rw [h]
    | str s =>
      have hs : isNumericStr s = false := by
        simpa [preIdWf] using hy
      simp [cmpPreId, hs] at h
  | str s =>
    have hs : isNumericStr s = false := by
      simpa [preIdWf] using hx
    cases y with
    | num b => simp [cmpPreId, hs] at h
    | str t =>
      have ht : isNumericStr t = false := by
        simpa [preIdWf] using hy
      simp only [cmpPreId] at h
      rw [cmpIdsStr_nonnum_eq_zero hs ht h]

theorem cmpPreList_refl (l : List PreId) : cmpPreList l l = 0 := by
  induction l with
  | nil => rfl
  | cons a t ih => simp [cmpPreList, ih]

theorem cmpPreList_flip (a b : List PreId) : cmpPreList a b = -cmpPreList b a := by
  induction a generalizing b with
  | nil => cases b <;> simp [cmpPreList]
  | cons x xs ih =>
    cases b with
    | nil => simp [cmpPreList]
    | cons y ys =>
      simp only [cmpPreList]
      rcases eq_or_ne x y with h | h
      · simp only [h, if_true]
        exact ih ys
      · simp only [h, Ne.symm h, if_false]
        exact cmpPreId_flip x y

theorem cmpPreList_wf_trans {a b c : List PreId}
    (ha : a.all preIdWf = true) (hb : b.all preIdWf = true)
    (hc : c.all preIdWf = true)
    (h1 : cmpPreList a b ≤ 0) (h2 : cmpPreList b c ≤ 0) : cmpPreList a c ≤ 0 := by
  induction a generalizing b c with
  | nil => cases c <;> simp [cmpPreList]
  | cons x xs ih =>
    cases b with
    | nil => simp [cmpPreList] at h1
    | cons y ys =>
      cases c with
      | nil => simp [cmpPreList] at h2
      | cons z zs =>
        simp only [List.all_cons, Bool.and_eq_true] at ha hb hc
        simp only [cmpPreList] at h1 h2 ⊢
        rcases eq_or_ne x y with hxy | hxy
        · subst hxy
          rcases eq_or_ne x z with hxz | hxz
          · subst hxz
            simp only [if_true] at h1 h2 ⊢
            exact ih ha.2 hb.2 hc.2 h1 h2
          · simp only [hxz, if_false] at h2 ⊢
            exact h2
        · simp only [hxy, if_false] at h1
          rcases eq_or_ne y z with hyz | hyz
          · subst hyz
            simp only [hxy, if_false]
            exact h1
          · simp only [hyz, if_false] at h2
            rcases eq_or_ne x z with hxz | hxz
            · -- cmpPreId x y ≤ 0 and cmpPreId y x ≤ 0 force cmpPreId x y = 0,
              -- which for well-formed identifiers forces x = y, contradiction
              subst hxz
              have hflip := cmpPreId_flip x y
              have hzero : cmpPreId x y = 0 := by omega
              exact absurd (cmpPreId_wf_eq_zero ha.1 hb.1 hzero) hxy
            · simp only [hxz, if_false]
              exact cmpPreId_wf_trans ha.1 hb.1 hc.1 h1 h2

theorem comparePre_refl (a : List PreId) : comparePre a a = 0 := by
  cases a <;> simp [comparePre, cmpPreList_refl]

theorem comparePre_flip (a b : List PreId) : comparePre a b = -comparePre b a := by
  cases a with
  | nil => cases b <;> simp [comparePre]
  | cons x xs =>
    cases b with
    | nil => simp [comparePre]
    | cons y ys =>
      simp only [comparePre]
      exact cmpPreList_flip (x :: xs) (y :: ys)

theorem comparePre_wf_trans {a b c : List PreId}
    (ha : a.all preIdWf = true) (hb : b.all preIdWf = true)
    (hc : c.all preIdWf = true)
    (h1 : comparePre a b ≤ 0) (h2 : comparePre b c ≤ 0) : comparePre a c ≤ 0 := by
  cases a with
  | nil =>
    cases b with
    | nil => cases c <;> simpa [comparePre] using h2
    | cons y ys => simp [comparePre] at h1
  | cons x xs =>
    cases c with
    | nil => simp [comparePre]
    | cons z zs =>
      cases b with
      | nil => simp [comparePre] at h2
      | cons y ys =>
        simp only [comparePre] at h1 h2 ⊢
        exact cmpPreList_wf_trans ha hb hc h1 h2

theorem compareMain_refl (a : SemVer) : compareMain a a = 0 := by
  simp [compareMain, cmpN_refl]

theorem compareMain_flip (a b : SemVer) : compareMain a b = -compareMain b a := by
  unfold compareMain
  rw [cmpN_flip a.major, cmpN_flip a.minor, cmpN_flip a.patch]
  split_ifs <;> omega

theorem compareMain_eq_zero_iff (a b : SemVer) :
    compareMain a b = 0 ↔
      a.major = b.major ∧ a.minor = b.minor ∧ a.patch = b.patch := by
  unfold compareMain
  by_cases c1 : cmpN a.major b.major ≠ 0
  · rw [if_pos c1]
    have e1 : a.major ≠ b.major := fun e => c1 (by rw [e, cmpN_refl])
    constructor
    · intro h
      exact absurd h c1
    · rintro ⟨h1, _, _⟩
      exact absurd h1 e1
  · have c1' : cmpN a.major b.major = 0 := not_ne_iff.mp c1
    have e1 : a.major = b.major := (cmpN_eq_zero_iff _ _).mp c1'
    rw [if_neg c1]
    by_cases c2 : cmpN a.minor b.minor ≠ 0
    · rw [if_pos c2]
      have e2 : a.minor ≠ b.minor := fun e => c2 (by rw [e, cmpN_refl])
      constructor
      · intro h
        exact absurd h c2
      · rintro ⟨_, h2, _⟩
        exact absurd h2 e2
    · have c2' : cmpN a.minor b.minor = 0 := not_ne_iff.mp c2
      have e2 : a.minor = b.minor := (cmpN_eq_zero_iff _ _).mp c2'
      rw [if_neg c2, cmpN_eq_zero_iff]
      simp [e1, e2]

theorem compareMain_neg_iff (a b : SemVer) :
    compareMain a b < 0 ↔
      (a.major < b.major ∨
        (a.major = b.major ∧ (a.minor < b.minor ∨
          (a.minor = b.minor ∧ a.patch < b.patch)))) := by
  unfold compareMain
  by_cases c1 : cmpN a.major b.major ≠ 0
  · rw [if_pos c1, cmpN_lt_iff]
    have e1 : a.major ≠ b.major := fun e => c1 (by rw [e, cmpN_refl])
    constructor
    · intro h
      exact Or.inl h
    · intro h
      rcases h with h | ⟨h1, _⟩
      · exact h
      · exact absurd h1 e1
  · have c1' : cmpN a.major b.major = 0 := not_ne_iff.mp c1
    have e1 : a.major = b.major := (cmpN_eq_zero_iff _ _).mp c1'
    rw [if_neg c1]
    by_cases c2 : cmpN a.minor b.minor ≠ 0
    · rw [if_pos c2, cmpN_lt_iff]
      have e2 : a.minor ≠ b.minor := fun e => c2 (by rw [e, cmpN_refl])
      constructor
      · intro h
        exact Or.inr ⟨e1, Or.inl h⟩
      · intro h
        rcases h with h | ⟨_, h | ⟨h2, _⟩⟩
        · omega
        · exact h
        · exact absurd h2 e2
    · have c2' : cmpN a.minor b.minor = 0 := not_ne_iff.mp c2
      have e2 : a.minor = b.minor := (cmpN_eq_zero_iff _ _).mp c2'
      rw [if_neg c2, cmpN_lt_iff]
      constructor
      · intro h
        exact Or.inr ⟨e1, Or.inr ⟨e2, h⟩⟩
      · intro h
        rcases h with h | ⟨_, h | ⟨_, h⟩⟩
        · omega
        · omega
        · exact h

theorem semverCompare_refl (a : SemVer) : semverCompare a a = 0 := by
  simp [semverCompare, compareMain_refl, comparePre_refl]

theorem semverCompare_flip (a b : SemVer) :
    semverCompare a b = -semverCompare b a := by
  unfold semverCompare
  rw [compareMain_flip, comparePre_flip]
  split_ifs <;> omega

theorem semverCompare_wf_trans {a b c : SemVer}
    (ha : semverWf a = true) (hb : semverWf b = true) (hc : semverWf c = true)
    (h1 : semverCompare a b ≤ 0) (h2 : semverCompare b c ≤ 0) :
    semverCompare a c ≤ 0 := by
  unfold semverCompare at h1 h2 ⊢
  unfold semverWf at ha hb hc
  rcases eq_or_ne (compareMain a b) 0 with hab | hab <;>
    rcases eq_or_ne (compareMain b c) 0 with hbc | hbc
  · have h3 : compareMain a c = 0 := by
      rw [compareMain_eq_zero_iff] at hab hbc ⊢
      omega
    rw [if_neg (by simp [hab])] at h1
    rw [if_neg (by simp [hbc])] at h2
    rw [if_neg (by simp [h3])]
    exact comparePre_wf_trans ha hb hc h1 h2
  · rw [if_pos hbc] at h2
    have hbclt : compareMain b c < 0 := lt_of_le_of_ne h2 hbc
    have h3 : compareMain a c < 0 := by
      rw [compareMain_eq_zero_iff] at hab
      rw [compareMain_neg_iff] at hbclt ⊢
      omega
    rw [if_pos (ne_of_lt h3)]
    omega
  · rw [if_pos hab] at h1
    have hablt : compareMain a b < 0 := lt_of_le_of_ne h1 hab
    have h3 : compareMain a c < 0 := by
      rw [compareMain_eq_zero_iff] at hbc
      rw [compareMain_neg_iff] at hablt ⊢
      omega
    rw [if_pos (ne_of_lt h3)]
    omega
  · rw [if_pos hab] at h1
    rw [if_pos hbc] at h2
    have hablt : compareMain a b < 0 := lt_of_le_of_ne h1 hab
    have hbclt : compareMain b c < 0 := lt_of_le_of_ne h2 hbc
    have h3 : compareMain a c < 0 := by
      rw [compareMain_neg_iff] at hablt hbclt ⊢
      omega
    rw [if_pos (ne_of_lt h3)]
    omega
/-! ### Semver ranges (`semver.Range`): disjunction of conjunctions of comparators -/

/-- Comparator operator after parsing: the semver parser normalises `=` to the
empty operator, so the possible operators are `''`, `<`, `<=`, `>`, `>=`
(represented here with `eq` for the empty operator). -/
inductive Op where
  | eq
  | lt
  | le
  | gt
  | ge
deriving DecidableEq, Repr

/-- A parsed comparator: an operator and a version, where `none` stands for the
`ANY` comparator (its `semver` is the library's `ANY` sentinel object, whose
`version` property is `undefined`; its operator is the empty string). -/
structure Comparator where
  op : Op
  sv : Option SemVer
deriving DecidableEq, Repr

/-- A parsed `semver.Range`: its `set` field, a disjunction (outer list) of
conjunctions (inner lists) of comparators. -/
abbrev SemverRange := List (List Comparator)

/-- Embedding of `semver.cmp` for the five comparison operators. -/
def cmpOp (v : SemVer) (op : Op) (s : SemVer) : Bool :=
  match op with
  | .eq => decide (semverCompare v s = 0)
  | .gt => decide (0 < semverCompare v s)
  | .ge => decide (0 ≤ semverCompare v s)
  | .lt => decide (semverCompare v s < 0)
  | .le => decide (semverCompare v s ≤ 0)

/-- Embedding of `Comparator.test`: the ANY comparator accepts every version. -/
def comparatorTest (v : SemVer) (c : Comparator) : Bool :=
  match c.sv with
  | none => true
  | some s => cmpOp v c.op s

/-- Embedding of `testSet` of the semver library with default options: every comparator must
accept the version, and a version carrying a prerelease is only accepted when
some comparator mentions a prerelease on the same `major.minor.patch` triple. -/
def testSet (set : List Comparator) (v : SemVer) : Bool :=
  set.all (comparatorTest v) &&
    (if v.prerelease.isEmpty then true
     else
       set.any (fun c =>
         match c.sv with
         | some s =>
             !s.prerelease.isEmpty && s.major == v.major &&
               s.minor == v.minor && s.patch == v.patch
         | none => false))

/-- Embedding of `Range.test`: some conjunction accepts the version. -/
def rangeTest (r : SemverRange) (v : SemVer) : Bool :=
  r.any (fun set => testSet set v)

/-! ### `getMinVersionFromRange` (src/core/validate.ts).

The semver library's `ANY` comparator stores a sentinel whose `version`
property is `undefined`, so the source guard
`comp.semver && comp.semver.version !== ''` is identically true (a real
version string is never empty) and every comparator reaches the operator
test.  Storing the sentinel as the running minimum is observable: a later
`compare` against it throws a `TypeError`, and a stored sentinel escapes as
the function's result (where `compareVersionDiff` then throws).  The scan
below therefore works on `Option SemVer` values (`none` being the sentinel)
and returns in an exception monad. -/

/-- Operators establishing a lower bound on the accepted versions:
`op === '' || op === '>=' || op === '>'` in the source. -/
def isLowerBoundOp : Op → Bool
  | .eq => true
  | .ge => true
  | .gt => true
  | _ => false

/-- A thrown JavaScript exception observable in this embedding: the
`TypeError` raised when a semver comparison meets the `ANY` sentinel
(either `ANY.compare` is missing or `new SemVer(ANY)` rejects it). -/
inductive JsThrow where
  | anyCompare
deriving DecidableEq, Repr

/-- One lower-bound update of the loop in `getMinVersionFromRange`: record
that a lower bound exists and keep the smaller of the current minimum and the
comparator's `semver` (possibly the `ANY` sentinel).  The comparison
`comp.semver.compare(minVersion)` is short-circuited away while the minimum is
still `null`, and throws when either side is the sentinel. -/
def anyPick (acc : Bool × Option (Option SemVer)) (sv : Option SemVer) :
    Except JsThrow (Bool × Option (Option SemVer)) :=
  match acc.2 with
  | none => .ok (true, some sv)
  | some mv =>
    match sv, mv with
    | some s, some m =>
      .ok (true, if semverCompare s m < 0 then some (some s) else some (some m))
    | _, _ => .error .anyCompare

/-- The loop body of `getMinVersionFromRange` for one comparator. -/
def minStep (acc : Bool × Option (Option SemVer)) (c : Comparator) :
    Except JsThrow (Bool × Option (Option SemVer)) :=
  if isLowerBoundOp c.op then anyPick acc c.sv else .ok acc

/-- The scan over the comparators of one conjunction, aborted by a throw. -/
def minScan : Bool × Option (Option SemVer) → List Comparator →
    Except JsThrow (Bool × Option (Option SemVer))
  | acc, [] => .ok acc
  | acc, c :: t =>
    match minStep acc c with
    | .ok acc2 => minScan acc2 t
    | .error e => .error e

/-- The scan over all conjunctions of the range. -/
def minScanSets : Bool × Option (Option SemVer) → List (List Comparator) →
    Except JsThrow (Bool × Option (Option SemVer))
  | acc, [] => .ok acc
  | acc, set :: rest =>
    match minScan acc set with
    | .ok acc2 => minScanSets acc2 rest
    | .error e => .error e

/-- Value of `new SemVer('0.0.0')`. -/
def zeroSemVer : SemVer := ⟨0, 0, 0, [], []⟩

/-- Embedding of `getMinVersionFromRange` (src/core/validate.ts, lines 26-55):
scan every comparator of every conjunction, track whether a lower bound was
seen and the smallest lower-bound `semver`; fall back to `0.0.0` when no lower
bound and no minimum were found.  The returned value is `null` (`none`), the
`ANY` sentinel (`some none`) or a version (`some (some v)`), and the scan
itself can throw on the sentinel. -/
def getMinVersionFromRange (r : SemverRange) :
    Except JsThrow (Option (Option SemVer)) :=
  match minScanSets (false, none) r with
  | .error e => .error e
  | .ok st =>
    if st.1 = false ∧ st.2 = none then .ok (some (some zeroSemVer)) else .ok st.2

/-- The `semver` field contributed by one comparator to the lower-bound scan:
present exactly for lower-bound operators (the value may be the sentinel). -/
def lbSv (c : Comparator) : Option (Option SemVer) :=
  if isLowerBoundOp c.op then some c.sv else none

/-- The `semver` fields (version or `ANY` sentinel) of all comparators whose
operator establishes a lower bound, in scan order. -/
def lowerBoundSvs (r : SemverRange) : List (Option SemVer) :=
  r.flatten.filterMap lbSv

/-- The real versions among the lower-bound comparators of a range. -/
def lowerBoundVersions (r : SemverRange) : List SemVer :=
  (lowerBoundSvs r).filterMap id

/-! ### `compareVersionDiff` and `computeStatus` (src/core/validate.ts) -/

/-- Embedding of `DependencyStatus` (src/core/types.ts). -/
inductive DependencyStatus where
  | latest
  | patchBehind
  | minorBehind
  | majorBehind
  | error
deriving DecidableEq, Repr

/-- Embedding of `compareVersionDiff` (src/core/validate.ts, lines 61-83). -/
def compareVersionDiff (current target : SemVer) : DependencyStatus :=
  if semverCompare current target ≥ 0 then .latest
  else if current.major < target.major then .majorBehind
  else if current.minor < target.minor then .minorBehind
  else if current.patch < target.patch then .patchBehind
  else .patchBehind

/-- JavaScript `String.prototype.trim` whitespace (the ASCII part suffices for
requirement strings). -/
def isJsSpace (c : Char) : Bool :=
  c = ' ' || c = '\t' || c = '\n' || c = '\r' || c = Char.ofNat 11 || c = Char.ofNat 12

/-- Trim on the character list of a string. -/
def jsTrimChars (cs : List Char) : List Char :=
  ((cs.dropWhile isJsSpace).reverse.dropWhile isJsSpace).reverse

/-- The character class `[0-9A-Za-z.-]` of the exact-version regex. -/
def isVerChar (c : Char) : Bool :=
  c.isDigit || c.isAlpha || c = '.' || c = '-'

/-- Remainder-matching for `[0-9A-Za-z.-]+(\+[0-9A-Za-z.-]+)?$` after a `-`. -/
def exactAfterDash (cs : List Char) : Bool :=
  let g := cs.takeWhile isVerChar
  if g.isEmpty then false
  else
    match cs.drop g.length with
    | [] => true
    | '+' :: u => !u.isEmpty && u.all isVerChar
    | _ => false

/-- Remainder-matching for `(-[0-9A-Za-z.-]+)?(\+[0-9A-Za-z.-]+)?$` after the
three numeric components. -/
def exactTail (cs : List Char) : Bool :=
  match cs with
  | [] => true
  | '-' :: t => exactAfterDash t
  | '+' :: u => !u.isEmpty && u.all isVerChar
  | _ => false

/-- Consume `\d+`; return the remainder on success. -/
def exactNum (cs : List Char) : Option (List Char) :=
  let d := cs.takeWhile Char.isDigit
  if d.isEmpty then none else some (cs.drop d.length)

/-- Match `^\d+\.\d+\.\d+(-[0-9A-Za-z.-]+)?(\+[0-9A-Za-z.-]+)?$`. -/
def exactCore (cs : List Char) : Bool :=
  match exactNum cs with
  | none => false
  | some r1 =>
    match r1 with
    | '.' :: r2 =>
      match exactNum r2 with
      | none => false
      | some r3 =>
        match r3 with
        | '.' :: r4 =>
          match exactNum r4 with
          | none => false
          | some r5 => exactTail r5
        | _ => false
    | _ => false

/-- Embedding of `isExactVersion` (src/core/validate.ts, lines 92-100): the
trimmed raw text is exactly three dot-separated digit runs with optional
prerelease and build suffixes and no leading operator. -/
def isExactVersion (versionRaw : String) : Bool :=
  exactCore (jsTrimChars versionRaw.data)

/-- JavaScript truthiness of `versionRaw && isExactVersion(versionRaw)`:
an absent or empty raw string is falsy. -/
def exactRaw (versionRaw : Option String) : Bool :=
  match versionRaw with
  | some raw => decide (raw ≠ "") && isExactVersion raw
  | none => false

/-- Embedding of `computeStatus` (src/core/validate.ts, lines 118-152).  The
falsiness test `!specifiedVersion` catches only `null`; the `ANY` sentinel is
truthy and reaches `compareVersionDiff`, whose `current.compare(target)` then
throws on it. -/
def computeStatus (specifiedRange : SemverRange) (latestStable latest : Option SemVer)
    (versionRaw : Option String) : Except JsThrow DependencyStatus :=
  match latest with
  | none => .ok .error
  | some l =>
    if exactRaw versionRaw then
      match getMinVersionFromRange specifiedRange with
      | .error e => .error e
      | .ok none => .ok .error
      | .ok (some none) => .error .anyCompare
      | .ok (some (some specifiedVersion)) =>
        .ok (compareVersionDiff specifiedVersion (latestStable.getD l))
    else if rangeTest specifiedRange (latestStable.getD l) then .ok .latest
    else
      match getMinVersionFromRange specifiedRange with
      | .error e => .error e
      | .ok none => .ok .error
      | .ok (some none) => .error .anyCompare
      | .ok (some (some specifiedVersion)) =>
        .ok (compareVersionDiff specifiedVersion (latestStable.getD l))

/-! ### Facts about `getMinVersionFromRange` -/

/-- The scan in `anyPick` steps, restricted to the lower-bound `semver`s. -/
def anyMinFold : Bool × Option (Option SemVer) → List (Option SemVer) →
    Except JsThrow (Bool × Option (Option SemVer))
  | acc, [] => .ok acc
  | acc, sv :: t =>
    match anyPick acc sv with
    | .ok acc2 => anyMinFold acc2 t
    | .error e => .error e

theorem minScan_append (l1 l2 : List Comparator) :
    ∀ acc, minScan acc (l1 ++ l2) =
      (match minScan acc l1 with
       | .ok acc2 => minScan acc2 l2
       | .error e => .error e) := by
  induction l1 with
  | nil => intro acc; rfl
  | cons c t ih =>
    intro acc
    show (match minStep acc c with
          | .ok a => minScan a (t ++ l2)
          | .error e => Except.error e) =
        (match (match minStep acc c with
                | .ok a => minScan a t
                | .error e => Except.error e) with
         | .ok acc2 => minScan acc2 l2
         | .error e => Except.error e)
    cases minStep acc c with
    | error e => rfl
    | ok a => exact ih a

theorem minScanSets_eq_flatten (r : SemverRange) :
    ∀ acc, minScanSets acc r = minScan acc r.flatten := by
  induction r with
  | nil => intro acc; rfl
  | cons set rest ih =>
    intro acc
    show (match minScan acc set with
          | .ok a => minScanSets a rest
          | .error e => Except.error e) = minScan acc ((set :: rest).flatten)
    have hfl : (set :: rest).flatten = set ++ rest.flatten := rfl
    rw [hfl, minScan_append]
    cases minScan acc set with
    | error e => rfl
    | ok a => exact ih a

theorem minScan_eq_anyMinFold (cs : List Comparator) :
    ∀ acc, minScan acc cs = anyMinFold acc (cs.filterMap lbSv) := by
  induction cs with
  | nil => intro acc; rfl
  | cons c t ih =>
    intro acc
    by_cases h : isLowerBoundOp c.op = true
    · have hl : lbSv c = some c.sv := by simp [lbSv, h]
      have hs : minStep acc c = anyPick acc c.sv := by simp [minStep, h]
      rw [List.filterMap_cons, hl]
      show (match minStep acc c with
            | .ok a => minScan a t
            | .error e => Except.error e) =
          (match anyPick acc c.sv with
           | .ok a => anyMinFold a (t.filterMap lbSv)
           | .error e => Except.error e)
      rw [hs]
      cases anyPick acc c.sv with
      | error e => rfl
      | ok a => exact ih a
    · have hl : lbSv c = none := by simp [lbSv, h]
      have hs : minStep acc c = .ok acc := by simp [minStep, h]
      rw [List.filterMap_cons, hl]
      show (match minStep acc c with
            | .ok a => minScan a t
            | .error e => Except.error e) = anyMinFold acc (t.filterMap lbSv)
      rw [hs]
      exact ih acc

theorem getMin_scan (r : SemverRange) :
    minScanSets ((false : Bool), (none : Option (Option SemVer))) r
      = anyMinFold (false, none) (lowerBoundSvs r) := by
  rw [minScanSets_eq_flatten, minScan_eq_anyMinFold]
  rfl

/-- Every successful `anyPick` step yields `hasLowerBound = true` and a stored
minimum. -/
theorem anyPick_ok_shape {acc : Bool × Option (Option SemVer)} {sv : Option SemVer}
    {acc2 : Bool × Option (Option SemVer)} (h : anyPick acc sv = .ok acc2) :
    ∃ x, acc2 = (true, some x) := by
  obtain ⟨b, m2⟩ := acc
  cases m2 with
  | none =>
    have h' : (Except.ok (true, some sv) : Except JsThrow (Bool × Option (Option SemVer)))
        = .ok acc2 := h
    injection h' with h1
    exact ⟨sv, h1.symm⟩
  | some mv =>
    cases sv with
    | some s =>
      cases mv with
      | some m =>
        have h' : (Except.ok
            (true, if semverCompare s m < 0 then some (some s) else some (some m)) :
              Except JsThrow (Bool × Option (Option SemVer))) = .ok acc2 := h
        injection h' with h1
        by_cases hc : semverCompare s m < 0
        · rw [if_pos hc] at h1
          exact ⟨some s, h1.symm⟩
        · rw [if_neg hc] at h1
          exact ⟨some m, h1.symm⟩
      | none =>
        have h' : (Except.error JsThrow.anyCompare :
            Except JsThrow (Bool × Option (Option SemVer))) = .ok acc2 := h
        exact Except.noConfusion h'
    | none =>
      cases mv with
      | some m =>
        have h' : (Except.error JsThrow.anyCompare :
            Except JsThrow (Bool × Option (Option SemVer))) = .ok acc2 := h
        exact Except.noConfusion h'
      | none =>
        have h' : (Except.error JsThrow.anyCompare :
            Except JsThrow (Bool × Option (Option SemVer))) = .ok acc2 := h
        exact Except.noConfusion h'

/-- A scan that ends with no stored minimum never saw a lower bound. -/
theorem anyMinFold_null_inv (L : List (Option SemVer)) :
    ∀ acc st, anyMinFold acc L = .ok st → (acc.2 = none → acc.1 = false) →
      st.2 = none → st.1 = false := by
  induction L with
  | nil =>
    intro acc st h hinv h2
    have hacc : acc = st := by
      have h' : (Except.ok acc : Except JsThrow (Bool × Option (Option SemVer)))
          = .ok st := h
      injection h'
    rw [← hacc] at h2 ⊢
    exact hinv h2
  | cons sv t ih =>
    intro acc st h hinv h2
    have hmatch : anyMinFold acc (sv :: t) =
        (match anyPick acc sv with
         | .ok a => anyMinFold a t
         | .error e => Except.error e) := rfl
    rw [hmatch] at h
    cases hp : anyPick acc sv with
    | error e =>
      rw [hp] at h
      have h' : (Except.error e : Except JsThrow (Bool × Option (Option SemVer)))
          = .ok st := h
      exact Except.noConfusion h'
    | ok acc2 =>
      rw [hp] at h
      have h' : anyMinFold acc2 t = .ok st := h
      obtain ⟨x, hx⟩ := anyPick_ok_shape hp
      refine ih acc2 st h' ?_ h2
      rw [hx]
      intro hcon
      exact absurd hcon (by simp)

/-- The minimum scan on real, well-formed versions returns the global minimum
(first-seen among ties). -/
theorem anyMinFold_real (vs : List SemVer) :
    ∀ m : SemVer, semverWf m = true → (∀ u ∈ vs, semverWf u = true) →
    ∃ m', anyMinFold (true, some (some m)) (vs.map some) = .ok (true, some (some m')) ∧
      (m' = m ∨ m' ∈ vs) ∧ semverWf m' = true ∧ semverCompare m' m ≤ 0 ∧
      ∀ u ∈ vs, semverCompare m' u ≤ 0 := by
  induction vs with
  | nil =>
    intro m hm _
    exact ⟨m, rfl, Or.inl rfl, hm, by rw [semverCompare_refl], by simp⟩
  | cons v t ih =>
    intro m hm hall
    have hv : semverWf v = true := hall v (List.mem_cons_self _ _)
    have ht : ∀ u ∈ t, semverWf u = true := fun u hu => hall u (List.mem_cons_of_mem _ hu)
    have h0 : anyMinFold (true, some (some m)) ((v :: t).map some)
        = anyMinFold
            (true, if semverCompare v m < 0 then some (some v) else some (some m))
            (t.map some) := rfl
    by_cases hc : semverCompare v m < 0
    · have hstep : anyMinFold (true, some (some m)) ((v :: t).map some)
          = anyMinFold (true, some (some v)) (t.map some) := by
        rw [h0, if_pos hc]
      rw [hstep]
      obtain ⟨m', hfold, hmem, hwf, hle, hrest⟩ := ih v hv ht
      refine ⟨m', hfold, ?_, hwf, ?_, ?_⟩
      · rcases hmem with hh | hh
        · exact Or.inr (by simp [hh])
        · exact Or.inr (by simp [hh])
      · exact semverCompare_wf_trans hwf hv hm hle (le_of_lt hc)
      · intro u hu
        rcases List.mem_cons.mp hu with hh | hh
        · rw [hh]
          exact hle
        · exact hrest u hh
    · have hstep : anyMinFold (true, some (some m)) ((v :: t).map some)
          = anyMinFold (true, some (some m)) (t.map some) := by
        rw [h0, if_neg hc]
      rw [hstep]
      obtain ⟨m', hfold, hmem, hwf, hle, hrest⟩ := ih m hm ht
      refine ⟨m', hfold, ?_, hwf, hle, ?_⟩
      · rcases hmem with hh | hh
        · exact Or.inl hh
        · exact Or.inr (by simp [hh])
      · intro u hu
        rcases List.mem_cons.mp hu with hh | hh
        · rw [hh]
          have hmv : semverCompare m v ≤ 0 := by
            have hflip := semverCompare_flip v m
            omega
          exact semverCompare_wf_trans hwf hm hv hle hmv
        · exact hrest u hh

/-- A list of options without `none` is its own compaction mapped back. -/
theorem filterMap_id_of_no_none {α : Type} (L : List (Option α))
    (h : (none : Option α) ∉ L) : L = (L.filterMap id).map some := by
  induction L with
  | nil => rfl
  | cons x t ih =>
    cases x with
    | none => exact absurd (List.mem_cons_self _ _) h
    | some a =>
      have ht : (none : Option α) ∉ t := fun hh => h (List.mem_cons_of_mem _ hh)
      have hfm : (some a :: t).filterMap id = a :: t.filterMap id := by
        simp [List.filterMap_cons]
      rw [hfm, List.map_cons, ← ih ht]

/-- The real function never returns `null`: whenever a lower bound was seen a
minimum was stored, and otherwise the `0.0.0` fallback fires. -/
theorem getMin_ne_null (r : SemverRange) : getMinVersionFromRange r ≠ .ok none := by
  unfold getMinVersionFromRange
  rw [getMin_scan]
  cases h : anyMinFold ((false : Bool), (none : Option (Option SemVer)))
      (lowerBoundSvs r) with
  | error e => simp
  | ok st =>
    show (if st.1 = false ∧ st.2 = none
        then (Except.ok (some (some zeroSemVer)) : Except JsThrow (Option (Option SemVer)))
        else Except.ok st.2) ≠ Except.ok none
    by_cases hc : st.1 = false ∧ st.2 = none
    · rw [if_pos hc]
      simp
    · rw [if_neg hc]
      intro heq
      injection heq with h2
      exact hc ⟨anyMinFold_null_inv (lowerBoundSvs r) (false, none) st h
        (fun _ => rfl) h2, h2⟩

theorem compareVersionDiff_ne_error (a b : SemVer) :
    compareVersionDiff a b ≠ .error := by
  unfold compareVersionDiff
  split_ifs <;> simp

/-- C4 counterexample: at the parsed form of the bare requirement `"*"` (one
conjunction holding only the `ANY` comparator, whose operator is the empty
string and whose `semver` is the sentinel), the scan records a lower bound and
stores the sentinel, so the function returns the non-version `ANY` sentinel
instead of the `0.0.0` floor the claim asserts for a range with no lower-bound
version. -/
theorem getMinVersionFromRange_any_cex :
    lowerBoundSvs [[⟨.eq, none⟩]] = [none] ∧
    getMinVersionFromRange [[⟨.eq, none⟩]] = .ok (some none) ∧
    getMinVersionFromRange [[⟨.eq, none⟩]] ≠ .ok (some (some zeroSemVer)) := by
  refine ⟨rfl, rfl, ?_⟩
  intro h
  injection h with h2
  simp at h2

/-- C4 (amended): with no lower-bound comparator at all the function returns
the implicit floor `0.0.0`; when every lower-bound comparator carries a real
version it returns their global minimum; and when its sole lower-bound
comparator is the `ANY` comparator (the parsed bare `"*"`) it returns the
library's non-version `ANY` sentinel instead. -/
theorem getMinVersionFromRange_spec (r : SemverRange) :
    (lowerBoundSvs r = [] → getMinVersionFromRange r = .ok (some (some zeroSemVer))) ∧
    (lowerBoundSvs r = [none] → getMinVersionFromRange r = .ok (some none)) ∧
    ((none : Option SemVer) ∉ lowerBoundSvs r → lowerBoundVersions r ≠ [] →
      (∀ u ∈ lowerBoundVersions r, semverWf u = true) →
      ∃ m, getMinVersionFromRange r = .ok (some (some m)) ∧
        m ∈ lowerBoundVersions r ∧
        ∀ u ∈ lowerBoundVersions r, semverCompare m u ≤ 0) := by
  refine ⟨?_, ?_, ?_⟩
  · intro hL
    unfold getMinVersionFromRange
    rw [getMin_scan, hL]
    rfl
  · intro hL
    unfold getMinVersionFromRange
    rw [getMin_scan, hL]
    rfl
  · intro hnone hne hwf
    have hmap : lowerBoundSvs r = (lowerBoundVersions r).map some := by
      show lowerBoundSvs r = ((lowerBoundSvs r).filterMap id).map some
      exact filterMap_id_of_no_none (lowerBoundSvs r) hnone
    obtain ⟨v, vs, hL⟩ : ∃ v vs, lowerBoundVersions r = v :: vs := by
      cases h : lowerBoundVersions r with
      | nil => exact absurd h hne
      | cons v vs => exact ⟨v, vs, rfl⟩
    have hv : semverWf v = true := hwf v (by rw [hL]; simp)
    have ht : ∀ u ∈ vs, semverWf u = true := fun u hu => hwf u (by rw [hL]; simp [hu])
    obtain ⟨m, hfold, hmem, hmwf, hle, hall⟩ := anyMinFold_real vs v hv ht
    have hscan : anyMinFold ((false : Bool), (none : Option (Option SemVer)))
        (lowerBoundSvs r) = .ok (true, some (some m)) := by
      rw [hmap, hL]
      have hfirst : anyMinFold ((false : Bool), (none : Option (Option SemVer)))
          ((v :: vs).map some) = anyMinFold (true, some (some v)) (vs.map some) := rfl
      rw [hfirst, hfold]
    refine ⟨m, ?_, ?_, ?_⟩
    · unfold getMinVersionFromRange
      rw [getMin_scan, hscan]
      rfl
    · rw [hL]
      rcases hmem with hh | hh
      · simp [hh]
      · simp [hh]
    · intro u hu
      rw [hL] at hu
      rcases List.mem_cons.mp hu with hh | hh
      · rw [hh]
        exact hle
      · exact hall u hh

/-- C4 witness: a range with only an upper bound yields the implicit floor
`0.0.0`; a caret-style range `>=1.1.0 <2.0.0` yields its lower bound. -/
theorem getMinVersionFromRange_spec_witness :
    getMinVersionFromRange [[⟨.lt, some ⟨1, 0, 0, [], []⟩⟩]] =
      .ok (some (some zeroSemVer)) ∧
    ∃ m, getMinVersionFromRange
            [[⟨.ge, some ⟨1, 1, 0, [], []⟩⟩, ⟨.lt, some ⟨2, 0, 0, [], []⟩⟩]] =
          .ok (some (some m)) ∧
      m ∈ lowerBoundVersions
            [[⟨.ge, some ⟨1, 1, 0, [], []⟩⟩, ⟨.lt, some ⟨2, 0, 0, [], []⟩⟩]] ∧
      ∀ u ∈ lowerBoundVersions
            [[⟨.ge, some ⟨1, 1, 0, [], []⟩⟩, ⟨.lt, some ⟨2, 0, 0, [], []⟩⟩]],
        semverCompare m u ≤ 0 := by
  constructor
  · exact (getMinVersionFromRange_spec _).1 (by decide)
  · exact (getMinVersionFromRange_spec _).2.2 (by decide) (by decide) (by decide)

/-- C3: the tiered comparison returns `latest` exactly when the current version
is at least the target under semver ordering, and otherwise classifies the gap
by the first differing component, with prerelease-only gaps as `patch-behind`. -/
theorem compareVersionDiff_spec (a b : SemVer) :
    (compareVersionDiff a b = .latest ↔ 0 ≤ semverCompare a b) ∧
    (semverCompare a b < 0 →
      compareVersionDiff a b =
        if a.major ≠ b.major then .majorBehind
        else if a.minor ≠ b.minor then .minorBehind
        else if a.patch ≠ b.patch then .patchBehind
        else .patchBehind) := by
  have hmain_le : semverCompare a b < 0 → compareMain a b ≤ 0 := by
    intro h
    unfold semverCompare at h
    by_cases hm : compareMain a b ≠ 0
    · rw [if_pos hm] at h; omega
    · push_neg at hm; omega
  constructor
  · constructor
    · intro h
      by_contra hneg
      push_neg at hneg
      unfold compareVersionDiff at h
      rw [if_neg (by omega)] at h
      split_ifs at h <;> simp at h
    · intro h
      unfold compareVersionDiff
      rw [if_pos (by omega)]
  · intro hlt
    unfold compareVersionDiff
    rw [if_neg (by omega)]
    have hm := hmain_le hlt
    rcases eq_or_ne (compareMain a b) 0 with h0 | h0
    · obtain ⟨e1, e2, e3⟩ := (compareMain_eq_zero_iff a b).mp h0
      rw [if_neg (show ¬a.major < b.major by omega),
          if_neg (show ¬a.minor < b.minor by omega),
          if_neg (show ¬a.patch < b.patch by omega),
          if_neg (show ¬a.major ≠ b.major by simp [e1]),
          if_neg (show ¬a.minor ≠ b.minor by simp [e2]),
          if_neg (show ¬a.patch ≠ b.patch by simp [e3])]
    · have hmlt : compareMain a b < 0 := lt_of_le_of_ne hm h0
      rw [compareMain_neg_iff] at hmlt
      rcases hmlt with h1 | ⟨e1, h2 | ⟨e2, h3⟩⟩
      · rw [if_pos h1, if_pos (show a.major ≠ b.major from ne_of_lt h1)]
      · rw [if_neg (show ¬a.major < b.major by omega), if_pos h2,
            if_neg (show ¬a.major ≠ b.major by simp [e1]),
            if_pos (show a.minor ≠ b.minor from ne_of_lt h2)]
      · rw [if_neg (show ¬a.major < b.major by omega),
            if_neg (show ¬a.minor < b.minor by omega), if_pos h3,
            if_neg (show ¬a.major ≠ b.major by simp [e1]),
            if_neg (show ¬a.minor ≠ b.minor by simp [e2]),
            if_pos (show a.patch ≠ b.patch from ne_of_lt h3)]

/-- C3 witness: `1.2.3` against `1.2.4` is behind and classified `patch-behind`;
`2.0.0` against `1.2.4` is `latest`. -/
theorem compareVersionDiff_spec_witness :
    semverCompare ⟨1, 2, 3, [], []⟩ ⟨1, 2, 4, [], []⟩ < 0 ∧
    compareVersionDiff ⟨1, 2, 3, [], []⟩ ⟨1, 2, 4, [], []⟩ = .patchBehind ∧
    compareVersionDiff ⟨2, 0, 0, [], []⟩ ⟨1, 2, 4, [], []⟩ = .latest := by
  have h : semverCompare ⟨1, 2, 3, [], []⟩ ⟨1, 2, 4, [], []⟩ < 0 := by decide
  refine ⟨h, ?_, ?_⟩
  · rw [(compareVersionDiff_spec _ _).2 h]
    decide
  · exact (compareVersionDiff_spec _ _).1.mpr (by decide)

/-- The parsed form of the caret requirement `"1.2.3"` (`^1.2.3`, i.e.
`>=1.2.3 <2.0.0-0`). -/
def caretOneTwoThree : SemverRange :=
  [[⟨.ge, some ⟨1, 2, 3, [], []⟩⟩, ⟨.lt, some ⟨2, 0, 0, [.num 0], []⟩⟩]]

/-- C2: an exact raw requirement routes `computeStatus` to the direct
minimum-bound/target tier comparison (so `"1.2.3"` against latest `1.2.4` is
`patch-behind`), while a non-exact requirement first tries range satisfaction
and only falls back to the tier comparison when the target misses the range. -/
theorem computeStatus_exact_vs_range (r : SemverRange) (lS : Option SemVer)
    (l : SemVer) (raw : Option String) (m : SemVer) :
    (exactRaw raw = true → getMinVersionFromRange r = .ok (some (some m)) →
      computeStatus r lS (some l) raw = .ok (compareVersionDiff m (lS.getD l))) ∧
    (exactRaw raw = false → rangeTest r (lS.getD l) = true →
      computeStatus r lS (some l) raw = .ok .latest) ∧
    (exactRaw raw = false → rangeTest r (lS.getD l) = false →
      getMinVersionFromRange r = .ok (some (some m)) →
      computeStatus r lS (some l) raw = .ok (compareVersionDiff m (lS.getD l))) ∧
    computeStatus caretOneTwoThree none (some ⟨1, 2, 4, [], []⟩) (some "1.2.3") =
      .ok .patchBehind := by
  refine ⟨?_, ?_, ?_, rfl⟩
  · intro h1 h2
    simp [computeStatus, h1, h2]
  · intro h1 h2
    simp [computeStatus, h1, h2]
  · intro h1 h2 h3
    simp [computeStatus, h1, h2, h3]

/-- C2 witness: scenario B (`"1.2.3"` vs latest `1.2.4`) through the exact
branch, and scenario A-style range satisfaction (`^1.2.3` vs stable `1.9.0`). -/
theorem computeStatus_exact_vs_range_witness :
    computeStatus caretOneTwoThree none (some ⟨1, 2, 4, [], []⟩) (some "1.2.3") =
      .ok (compareVersionDiff ⟨1, 2, 3, [], []⟩ ⟨1, 2, 4, [], []⟩) ∧
    computeStatus caretOneTwoThree (some ⟨1, 9, 0, [], []⟩) (some ⟨1, 9, 0, [], []⟩)
      (some "^1.2.3") = .ok .latest := by
  constructor
  · exact (computeStatus_exact_vs_range caretOneTwoThree none ⟨1, 2, 4, [], []⟩
      (some "1.2.3") ⟨1, 2, 3, [], []⟩).1 (by decide) rfl
  · exact (computeStatus_exact_vs_range caretOneTwoThree (some ⟨1, 9, 0, [], []⟩)
      ⟨1, 9, 0, [], []⟩ (some "^1.2.3") ⟨1, 2, 3, [], []⟩).2.1 (by decide) (by decide)

/-- C10 counterexample: on the parsed bare requirement `"*"` the minimum-bound
helper returns the non-version `ANY` sentinel rather than a version or the
`0.0.0` floor, and `computeStatus` with an available latest version (here a
prerelease that defeats range satisfaction) throws the sentinel `TypeError`
instead of producing a status. -/
theorem computeStatus_any_cex :
    getMinVersionFromRange [[⟨.eq, none⟩]] = .ok (some none) ∧
    (Except.ok (some none) : Except JsThrow (Option (Option SemVer))) ≠
      .ok (some (some zeroSemVer)) ∧
    computeStatus [[⟨.eq, none⟩]] none (some ⟨1, 0, 0, [.num 1], []⟩) (some "*") =
      .error .anyCompare := by
  refine ⟨rfl, ?_, rfl⟩
  intro h
  injection h with h2
  simp at h2

/-- C10 (amended): the minimum-bound helper never returns `null`, so the two
`error` statuses of `computeStatus` guarded by a missing minimum are indeed
unreachable when a latest version exists; but totality holds only when the
stored minimum is a real version — on the lone-`ANY` range the helper returns
the sentinel and `computeStatus` throws instead of returning a status. -/
theorem computeStatus_min_total (r : SemverRange) (lS : Option SemVer) (l : SemVer)
    (raw : Option String) :
    getMinVersionFromRange r ≠ .ok none ∧
    (∀ m, getMinVersionFromRange r = .ok (some (some m)) →
      computeStatus r lS (some l) raw ≠ .ok .error) := by
  refine ⟨getMin_ne_null r, ?_⟩
  intro m hm
  cases h1 : exactRaw raw <;> cases h2 : rangeTest r (lS.getD l) <;>
    simp [computeStatus, h1, h2, hm, compareVersionDiff_ne_error]

/-- C10 witness: on the caret range `^1.2.3` the minimum bound is the real
version `1.2.3` and the status against latest `1.2.4` is not `error`. -/
theorem computeStatus_min_total_witness :
    getMinVersionFromRange caretOneTwoThree ≠ .ok none ∧
    computeStatus caretOneTwoThree none (some ⟨1, 2, 4, [], []⟩) (some "1.2.3") ≠
      .ok .error := by
  exact ⟨(computeStatus_min_total caretOneTwoThree none ⟨1, 2, 4, [], []⟩
      (some "1.2.3")).1,
    (computeStatus_min_total caretOneTwoThree none ⟨1, 2, 4, [], []⟩
      (some "1.2.3")).2 ⟨1, 2, 3, [], []⟩ rfl⟩


/-! ### Strict semver parsing (`semver.parse` with default options) -/

/-- The identifier character class `[0-9A-Za-z-]`. -/
def isIdChar (c : Char) : Bool :=
  c.isDigit || c.isAlpha || c = '-'

/-- Split a character list on a separator, like `String.prototype.split` with a
single-character separator (an empty input yields one empty field). -/
def splitOnChar (sep : Char) : List Char → List (List Char)
  | [] => [[]]
  | c :: rest =>
    if c = sep then [] :: splitOnChar sep rest
    else
      match splitOnChar sep rest with
      | [] => [[c]]
      | s :: ss => (c :: s) :: ss

/-- A `major`/`minor`/`patch` component: `0|[1-9]\d*` (no leading zero). -/
def numComponent (d : List Char) : Option Nat :=
  if d.isEmpty then none
  else if d = ['0'] then some 0
  else if d.head? = some '0' then none
  else some (natOfDigits d)

/-- One prerelease identifier: `0|[1-9]\d*|\d*[a-zA-Z-][a-zA-Z0-9-]*`; all-digit
identifiers are stored as numbers. -/
def parsePreId (cs : List Char) : Option PreId :=
  if cs.isEmpty then none
  else if cs.all Char.isDigit then
    if cs = ['0'] then some (.num 0)
    else if cs.head? = some '0' then none
    else some (.num (natOfDigits cs))
  else if cs.all isIdChar then some (.str (String.mk cs)) else none

/-- One build identifier: `[0-9A-Za-z-]+` (leading zeros allowed). -/
def parseBuildId (cs : List Char) : Option String :=
  if !cs.isEmpty && cs.all isIdChar then some (String.mk cs) else none

/-- The dot-separated prerelease identifier list. -/
def parsePreIds (cs : List Char) : Option (List PreId) :=
  (splitOnChar '.' cs).mapM parsePreId

/-- The dot-separated build identifier list. -/
def parseBuildIds (cs : List Char) : Option (List String) :=
  (splitOnChar '.' cs).mapM parseBuildId

/-- Embedding of `semver.parse` in strict mode: trimmed input, optional `v`, three numeric
components without leading zeros, optional `-prerelease` and `+build`. -/
def semverParse (s : String) : Option SemVer :=
  let cs0 := jsTrimChars s.data
  let cs :=
    match cs0 with
    | 'v' :: t => t
    | _ => cs0
  let d1 := cs.takeWhile Char.isDigit
  match numComponent d1, cs.drop d1.length with
  | some major, '.' :: r2 =>
    let d2 := r2.takeWhile Char.isDigit
    match numComponent d2, r2.drop d2.length with
    | some minor, '.' :: r4 =>
      let d3 := r4.takeWhile Char.isDigit
      match numComponent d3, r4.drop d3.length with
      | some patch, r5 =>
        match r5 with
        | [] => some ⟨major, minor, patch, [], []⟩
        | '-' :: t =>
          let preChunk := t.takeWhile (fun c => c ≠ '+')
          match parsePreIds preChunk, t.drop preChunk.length with
          | some pre, [] => some ⟨major, minor, patch, pre, []⟩
          | some pre, '+' :: b =>
            match parseBuildIds b with
            | some bs => some ⟨major, minor, patch, pre, bs⟩
            | none => none
          | _, _ => none
        | '+' :: b =>
          match parseBuildIds b with
          | some bs => some ⟨major, minor, patch, [], bs⟩
          | none => none
        | _ => none
      | none, _ => none
    | _, _ => none
  | _, _ => none

/-! ### Registry index record parsing (src/unnamed/part_002: `parseRelease`,
`parseIndex`).  JSON decoding (`JSON.parse`) and line splitting are JavaScript
builtins external to the repository; a fetched line is therefore embedded as
its decode result: either a decode failure message or a `Release` record. -/

/-- The decoded shape of one index record: `{name?, vers?, yanked?}`. -/
structure Release where
  name : Option String
  vers : Option String
  yanked : Option Bool
deriving DecidableEq, Repr

/-- Reasons a record line is rejected (each is logged as a warning). -/
inductive RelErr where
  | invalidJson (msg : String)
  | nameMismatch (found : Option String)
  | yankedMissing
  | invalidSemver (vers : Option String)
deriving DecidableEq, Repr

/-- Outcome of `parseRelease`: an `Error` (rejected, logged), `undefined`
(yanked record, silently dropped) or a parsed version. -/
inductive RelOutcome where
  | failed (e : RelErr)
  | dropped
  | version (v : SemVer)
deriving DecidableEq, Repr

/-- Embedding of `semver.parse` applied to a possibly-absent `vers` field. -/
def semverParseOpt : Option String → Option SemVer
  | none => none
  | some s => semverParse s

/-- Embedding of `parseRelease` (src/unnamed/part_002, lines 274-298). -/
def parseRelease (line : Except String Release) (name : String) : RelOutcome :=
  match line with
  | .error e => .failed (.invalidJson e)
  | .ok r =>
    if r.name ≠ some name then .failed (.nameMismatch r.name)
    else
      match r.yanked with
      | none => .failed .yankedMissing
      | some true => .dropped
      | some false =>
        match semverParseOpt r.vers with
        | none => .failed (.invalidSemver r.vers)
        | some version => .version version

/-- The version list surviving the per-line map/filter of `parseIndex`. -/
def collectVersions (name : String) (lines : List (Except String Release)) :
    List SemVer :=
  lines.filterMap (fun line =>
    match parseRelease line name with
    | .version v => some v
    | _ => none)

/-- Build-aware "less or equal" used by `versions.sort(semver.compareBuild)`. -/
def buildLe (a b : SemVer) : Prop := semverCompareBuild a b ≤ 0

instance : DecidableRel buildLe := fun a b =>
  inferInstanceAs (Decidable (semverCompareBuild a b ≤ 0))

/-- Evaluation of `versions.sort(semver.compareBuild).reverse()`: a stable ascending sort by
build-aware comparison, then reversal, so index 0 is the overall latest. -/
def sortDescByBuild (vs : List SemVer) : List SemVer :=
  (List.insertionSort buildLe vs).reverse

/-- Fetch-level failure of `parseIndex`. -/
inductive FetchErr where
  | noVersionsFound (name source : String)
deriving DecidableEq, Repr

/-- Embedding of `parseIndex` (src/unnamed/part_002, lines 216-244) on decoded lines: map
each line through `parseRelease`, drop rejected and yanked records, fail when
nothing survives, otherwise return the versions sorted descending. -/
def parseIndexLines (name source : String) (lines : List (Except String Release)) :
    Except FetchErr (List SemVer) :=
  let versions := collectVersions name lines
  if versions.isEmpty then .error (.noVersionsFound name source)
  else .ok (sortDescByBuild versions)
/-- C5: record filtering of the plain-text index fetch.  A line whose JSON is
malformed, whose `name` differs from the requested crate, whose `yanked` field
is absent or whose `vers` does not parse is rejected; a rejected or yanked line
is skipped without aborting the collection; a well-formed non-yanked matching
record contributes its version (`{name:"serde", vers:"1.2.3", yanked:false}`
yields `1.2.3`); zero surviving versions fail the fetch with the
"no versions found" error, otherwise the fetch succeeds. -/
theorem parseIndex_record_filtering (name source : String)
    (lines : List (Except String Release)) (r : Release) (e : String) :
    (parseRelease (.error e) name = .failed (.invalidJson e)) ∧
    (r.name ≠ some name → parseRelease (.ok r) name = .failed (.nameMismatch r.name)) ∧
    (r.name = some name → r.yanked = none →
      parseRelease (.ok r) name = .failed .yankedMissing) ∧
    (r.name = some name → r.yanked = some true → parseRelease (.ok r) name = .dropped) ∧
    (r.name = some name → r.yanked = some false → semverParseOpt r.vers = none →
      parseRelease (.ok r) name = .failed (.invalidSemver r.vers)) ∧
    (∀ v, r.name = some name → r.yanked = some false → semverParseOpt r.vers = some v →
      parseRelease (.ok r) name = .version v) ∧
    (∀ line rest, (∀ v, parseRelease line name ≠ .version v) →
      collectVersions name (line :: rest) = collectVersions name rest) ∧
    (∀ line rest v, parseRelease line name = .version v →
      collectVersions name (line :: rest) = v :: collectVersions name rest) ∧
    (collectVersions name lines = [] →
      parseIndexLines name source lines = .error (.noVersionsFound name source)) ∧
    (collectVersions name lines ≠ [] →
      parseIndexLines name source lines = .ok (sortDescByBuild (collectVersions name lines))) ∧
    (parseRelease (.ok ⟨some "serde", some "1.2.3", some false⟩) "serde" =
      .version ⟨1, 2, 3, [], []⟩) ∧
    (parseRelease (.ok ⟨some "serde", some "1.2.3", some true⟩) "serde" = .dropped) := by
  refine ⟨rfl, ?_, ?_, ?_, ?_, ?_, ?_, ?_, ?_, ?_, by decide, by decide⟩
  · intro h
    simp [parseRelease, h]
  · intro h1 h2
    simp [parseRelease, h1, h2]
  · intro h1 h2
    simp [parseRelease, h1, h2]
  · intro h1 h2 h3
    simp [parseRelease, h1, h2, h3]
  · intro v h1 h2 h3
    simp [parseRelease, h1, h2, h3]
  · intro line rest h
    unfold collectVersions
    rw [List.filterMap_cons]
    cases hout : parseRelease line name with
    | failed e2 => simp
    | dropped => simp
    | version v => exact absurd hout (h v)
  · intro line rest v h
    unfold collectVersions
    rw [List.filterMap_cons, h]
  · intro h
    unfold parseIndexLines
    rw [h]
    rfl
  · intro h
    unfold parseIndexLines
    rw [if_neg (by simpa using h)]

/-- C5 witness: an unparsable `vers` is rejected, and a buffer whose only
record names a different crate yields the "no versions found" failure. -/
theorem parseIndex_record_filtering_witness :
    parseRelease (.ok ⟨some "serde", none, some false⟩) "serde" =
      .failed (.invalidSemver none) ∧
    parseIndexLines "serde" "registry" [.ok ⟨some "tokio", some "1.0.0", some false⟩] =
      .error (.noVersionsFound "serde" "registry") := by
  constructor
  · exact (parseIndex_record_filtering "serde" "registry" []
      ⟨some "serde", none, some false⟩ "").2.2.2.2.1 rfl rfl rfl
  · exact (parseIndex_record_filtering "serde" "registry"
      [.ok ⟨some "tokio", some "1.0.0", some false⟩]
      ⟨some "serde", none, some false⟩ "").2.2.2.2.2.2.2.2.1 (by decide)

/-! ### Local binary cache parsing (src/unnamed/part_002: `parseCacheBuffer`) -/

/-- Split a byte list on NUL bytes (`buffer.toString('utf8', 5).split('\0')`,
with each segment kept as its bytes). -/
def splitOnNul : List Nat → List (List Nat)
  | [] => [[]]
  | b :: rest =>
    if b = 0 then [] :: splitOnNul rest
    else
      match splitOnNul rest with
      | [] => [[b]]
      | s :: ss => (b :: s) :: ss

/-- The segment filter of `parseCacheBuffer`:
`.filter((_, i) => i % 2 === 0 && i !== 0)`. -/
def keepEvenNonzero (segs : List (List Nat)) : List (List Nat) :=
  (segs.enum.filter (fun p => p.1 % 2 == 0 && !(p.1 == 0))).map Prod.snd

/-- Failures of the binary cache read: a short buffer (a `RangeError` from the
header reads) or a header version mismatch. -/
inductive CacheErr where
  | outOfRange (name : String)
  | unknownCacheVersion (name : String) (v : Nat)
  | unknownIndexVersion (name : String) (v : Nat)
deriving DecidableEq, Repr

/-- Evaluation of `buffer.readUint32LE(1)`. -/
def u32le (b1 b2 b3 b4 : Nat) : Nat :=
  b1 + 256 * b2 + 65536 * b3 + 16777216 * b4

/-- Embedding of `parseCacheBuffer` (src/unnamed/part_002, lines 246-266): byte 0 must be
the cache format 3, bytes 1-4 (little endian) the index format 2; the rest of
the buffer is split on NUL and only every other segment starting at index 2 is
returned for JSON parsing. -/
def parseCacheBuffer (name : String) (buffer : List Nat) :
    Except CacheErr (List (List Nat)) :=
  match buffer with
  | b0 :: b1 :: b2 :: b3 :: b4 :: rest =>
    if b0 ≠ 3 then .error (.unknownCacheVersion name b0)
    else if u32le b1 b2 b3 b4 ≠ 2 then
      .error (.unknownIndexVersion name (u32le b1 b2 b3 b4))
    else .ok (keepEvenNonzero (splitOnNul rest))
  | _ => .error (.outOfRange name)

mutual

/-- Elements at even positions (0, 2, 4, …) of a list. -/
def altEven {α : Type} : List α → List α
  | [] => []
  | a :: t => a :: altOdd t

/-- Elements at odd positions (1, 3, 5, …) of a list — the selection the spec
describes for the cache segments. -/
def altOdd {α : Type} : List α → List α
  | [] => []
  | _ :: t => altEven t

end

theorem enum_filter_even_nonzero {α : Type} (l : List α) :
    ∀ n, 1 ≤ n →
      ((List.enumFrom n l).filter (fun p => p.1 % 2 == 0 && !(p.1 == 0))).map Prod.snd
        = if n % 2 = 0 then altEven l else altOdd l := by
  induction l with
  | nil =>
    intro n hn
    by_cases h : n % 2 = 0 <;> simp [List.enumFrom, altEven, altOdd, h]
  | cons a t ih =>
    intro n hn
    have hrec := ih (n + 1) (by omega)
    by_cases hpar : n % 2 = 0
    · have hq : ((n % 2 == 0) && !(n == 0)) = true := by
        have h1 : (n % 2 == 0) = true := by simpa using hpar
        have h2 : (n == 0) = false := by
          simp only [beq_eq_false_iff_ne, ne_eq]
          omega
        simp [h1, h2]
    -- keep the head, the tail continues at an odd offset
      have hodd : ¬((n + 1) % 2 = 0) := by omega
      rw [if_neg hodd] at hrec
      simp only [List.enumFrom, List.filter_cons, hq, if_true, List.map_cons,
        if_pos hpar]
      rw [hrec]
      rfl
    · have hq : ((n % 2 == 0) && !(n == 0)) = false := by
        have h1 : (n % 2 == 0) = false := by
          simp only [beq_eq_false_iff_ne, ne_eq]
          omega
        simp [h1]
      have heven : (n + 1) % 2 = 0 := by omega
      rw [if_pos heven] at hrec
      simp only [List.enumFrom, List.filter_cons, hq, Bool.false_eq_true, if_false,
        if_neg hpar]
      rw [hrec]
      rfl

/-- The source's index filter keeps exactly the segments at the even indices
2, 4, 6, …, i.e. the odd-position elements of the tail. -/
theorem keepEvenNonzero_eq (segs : List (List Nat)) :
    keepEvenNonzero segs = altOdd segs.tail := by
  cases segs with
  | nil => rfl
  | cons a t =>
    unfold keepEvenNonzero
    have h0 : (((0 : Nat) % 2 == 0) && !((0 : Nat) == 0)) = false := by decide
    simp only [List.enum, List.enumFrom, List.filter_cons, h0, if_false]
    have := enum_filter_even_nonzero t 1 (by omega)
    rw [if_neg (by omega)] at this
    simpa using this
/-- C1 counterexample: for the buffer whose post-header bytes split into the
segments `"A"`, `"B"`, `"C"`, the spec's selection (every other segment
beginning with the second, indices 1, 3, 5, …) would be `["B"]`, but the parser
hands `["C"]` (index 2) to the JSON record parser. -/
theorem parseCacheBuffer_odd_selection_cex :
    splitOnNul [65, 0, 66, 0, 67] = [[65], [66], [67]] ∧
    altOdd [[65], [66], [67]] = [[66]] ∧
    parseCacheBuffer "a" [3, 2, 0, 0, 0, 65, 0, 66, 0, 67] = .ok [[67]] ∧
    parseCacheBuffer "a" [3, 2, 0, 0, 0, 65, 0, 66, 0, 67] ≠ .ok [[66]] := by
  have heq : parseCacheBuffer "a" [3, 2, 0, 0, 0, 65, 0, 66, 0, 67] = .ok [[67]] := rfl
  refine ⟨by decide, by decide, heq, ?_⟩
  rw [heq]
  intro h
  injection h with h2
  exact absurd h2 (by decide)

/-- C1 (amended): for every buffer passing the header checks, the parser splits
the bytes from offset 5 on NUL and treats exactly every other segment beginning
with the THIRD segment (indices 2, 4, 6, …) as a JSON version record — the
first segment and the interleaved odd-index segments are cache metadata. -/
theorem parseCacheBuffer_segment_selection (name : String) (rest : List Nat) :
    parseCacheBuffer name (3 :: 2 :: 0 :: 0 :: 0 :: rest) =
      .ok (altOdd ((splitOnNul rest).tail)) := by
  simp only [parseCacheBuffer]
  rw [if_neg (by decide), if_neg (by norm_num [u32le]), keepEvenNonzero_eq]

/-- C6: a buffer whose cache-format byte differs from 3, or whose little-endian
index-format word differs from 2, makes the cache read fail with the matching
version-mismatch error; the remaining bytes are universally quantified and do
not influence the result, so no record is ever parsed from them. -/
theorem parseCacheBuffer_header_guard (name : String) (b0 b1 b2 b3 b4 : Nat)
    (rest : List Nat) :
    (b0 ≠ 3 →
      parseCacheBuffer name (b0 :: b1 :: b2 :: b3 :: b4 :: rest) =
        .error (.unknownCacheVersion name b0)) ∧
    (b0 = 3 → u32le b1 b2 b3 b4 ≠ 2 →
      parseCacheBuffer name (b0 :: b1 :: b2 :: b3 :: b4 :: rest) =
        .error (.unknownIndexVersion name (u32le b1 b2 b3 b4))) := by
  constructor
  · intro h
    simp only [parseCacheBuffer]
    rw [if_pos h]
  · intro h0 h
    subst h0
    simp only [parseCacheBuffer]
    rw [if_neg (by decide), if_pos h]

/-- C6 witness: cache-format byte 7 and index-format word 5 each fail fast with
the version-mismatch errors. -/
theorem parseCacheBuffer_header_guard_witness :
    parseCacheBuffer "x" [7, 2, 0, 0, 0, 65] = .error (.unknownCacheVersion "x" 7) ∧
    parseCacheBuffer "x" [3, 5, 0, 0, 0, 65] = .error (.unknownIndexVersion "x" 5) := by
  constructor
  · exact (parseCacheBuffer_header_guard "x" 7 2 0 0 0 [65]).1 (by decide)
  · exact (parseCacheBuffer_header_guard "x" 3 5 0 0 0 [65]).2 rfl (by decide)
/-! ### Registry configuration (src/core/config.ts).  `new URL` is a JavaScript
builtin external to the repository; it is supplied as an oracle `parseURL`
returning `none` exactly when construction would throw. -/

/-- A successfully constructed URL object. -/
structure Url where
  raw : String
deriving DecidableEq, Repr

/-- Embedding of `CRATES_IO_INDEX` (src/core/config.ts). -/
def CRATES_IO_INDEX : Url := ⟨"https://index.crates.io/"⟩

/-- Embedding of `CRATES_IO_CACHE` (src/core/config.ts). -/
def CRATES_IO_CACHE : String := "index.crates.io-6f17d22bba15001f"

/-- Embedding of `DOCS_RS_URL` (src/core/config.ts). -/
def DOCS_RS_URL : Url := ⟨"https://docs.rs/"⟩

/-- Embedding of `Registry` (src/core/types.ts shape used by config.ts). -/
structure Registry where
  index : Url
  cache : Option String
  docs : Option Url
  token : Option String
deriving DecidableEq, Repr

/-- Embedding of `RegistryConfig` (src/core/config.ts). -/
structure RegistryConfig where
  name : String
  index : String
  cache : Option String
  docs : Option String
  token : Option String
deriving DecidableEq, Repr

/-- Source-replacement (mirror) entry of the validator configuration. -/
structure SourceReplacement where
  index : String
  token : Option String
deriving DecidableEq, Repr

/-- The parts of `ValidatorConfig` consumed by `getRegistry`. -/
structure ValidatorConfig where
  cratesIoIndex : Url
  cratesIoCache : String
  registries : List RegistryConfig
  sourceReplacement : Option SourceReplacement
deriving DecidableEq, Repr

/-- Errors thrown by registry resolution, carrying the data interpolated into
the real error messages. -/
inductive RegErr where
  | invalidIndexUrl (registryName url : String)
  | invalidDocsUrl (registryName url : String)
  | unknownRegistry (name : String)
  | invalidReplacementUrl (url : String)
deriving DecidableEq, Repr

/-- JavaScript truthiness of an optional string (`undefined` and `""` are
falsy). -/
def strTruthy : Option String → Bool
  | some s => decide (s ≠ "")
  | none => false

/-- Embedding of `parseRegistryConfig` (src/core/config.ts, lines 30-49): the
guard `if (registry.docs)` is a truthiness test, so the docs URL is parsed only
when `registry.docs` is present and non-empty; otherwise the docs field stays
`undefined`. -/
def parseRegistryConfig (parseURL : String → Option Url) (registry : RegistryConfig) :
    Except RegErr Registry :=
  match parseURL registry.index with
  | none => .error (.invalidIndexUrl registry.name registry.index)
  | some index =>
    if strTruthy registry.docs then
      match parseURL (registry.docs.getD "") with
      | none => .error (.invalidDocsUrl registry.name (registry.docs.getD ""))
      | some docs => .ok ⟨index, registry.cache, some docs, registry.token⟩
    else .ok ⟨index, registry.cache, none, registry.token⟩

/-- Embedding of `getRegistry` (src/core/config.ts, lines 78-104). -/
def getRegistry (parseURL : String → Option Url) (name : Option String)
    (config : ValidatorConfig) : Except RegErr Registry :=
  if strTruthy name then
    match config.registries.find? (fun r => r.name == name.getD "") with
    | some registry => parseRegistryConfig parseURL registry
    | none => .error (.unknownRegistry (name.getD ""))
  else
    match config.sourceReplacement with
    | some sr =>
      match parseURL sr.index with
      | none => .error (.invalidReplacementUrl sr.index)
      | some index => .ok ⟨index, none, some DOCS_RS_URL, sr.token⟩
    | none =>
      .ok ⟨config.cratesIoIndex, some config.cratesIoCache, some DOCS_RS_URL, none⟩

/-- C9: registry resolution by name uses exact name lookup and materialises the
registry's URLs, failing with "unknown registry" when the name is absent and
with errors naming the registry and the offending URL string when a URL is
malformed (an absent or empty docs string is skipped rather than parsed); with
no name, a configured source replacement overrides the index URL while
inheriting the default docs URL, and otherwise the default crates.io registry
is returned. -/
theorem getRegistry_spec (parseURL : String → Option Url) (config : ValidatorConfig)
    (n : String) (rc : RegistryConfig) (sr : SourceReplacement) (u du : Url)
    (d : String) :
    (n ≠ "" → config.registries.find? (fun r => r.name == n) = some rc →
      getRegistry parseURL (some n) config = parseRegistryConfig parseURL rc) ∧
    (n ≠ "" → config.registries.find? (fun r => r.name == n) = none →
      getRegistry parseURL (some n) config = .error (.unknownRegistry n)) ∧
    (parseURL rc.index = none →
      parseRegistryConfig parseURL rc = .error (.invalidIndexUrl rc.name rc.index)) ∧
    (parseURL rc.index = some u → rc.docs = none →
      parseRegistryConfig parseURL rc = .ok ⟨u, rc.cache, none, rc.token⟩) ∧
    (parseURL rc.index = some u → rc.docs = some "" →
      parseRegistryConfig parseURL rc = .ok ⟨u, rc.cache, none, rc.token⟩) ∧
    (parseURL rc.index = some u → rc.docs = some d → d ≠ "" → parseURL d = none →
      parseRegistryConfig parseURL rc = .error (.invalidDocsUrl rc.name d)) ∧
    (parseURL rc.index = some u → rc.docs = some d → d ≠ "" → parseURL d = some du →
      parseRegistryConfig parseURL rc = .ok ⟨u, rc.cache, some du, rc.token⟩) ∧
    (config.sourceReplacement = some sr → parseURL sr.index = some u →
      getRegistry parseURL none config = .ok ⟨u, none, some DOCS_RS_URL, sr.token⟩) ∧
    (config.sourceReplacement = some sr → parseURL sr.index = none →
      getRegistry parseURL none config = .error (.invalidReplacementUrl sr.index)) ∧
    (config.sourceReplacement = none →
      getRegistry parseURL none config =
        .ok ⟨config.cratesIoIndex, some config.cratesIoCache, some DOCS_RS_URL, none⟩) := by
  refine ⟨?_, ?_, ?_, ?_, ?_, ?_, ?_, ?_, ?_, ?_⟩
  · intro h1 h2
    simp [getRegistry, strTruthy, h1, h2]
  · intro h1 h2
    simp [getRegistry, strTruthy, h1, h2]
  · intro h
    simp [parseRegistryConfig, h]
  · intro h1 h2
    simp [parseRegistryConfig, strTruthy, h1, h2]
  · intro h1 h2
    simp [parseRegistryConfig, strTruthy, h1, h2]
  · intro h1 h2 hd h3
    simp [parseRegistryConfig, strTruthy, h1, h2, hd, h3]
  · intro h1 h2 hd h3
    simp [parseRegistryConfig, strTruthy, h1, h2, hd, h3]
  · intro h1 h2
    simp [getRegistry, strTruthy, h1, h2]
  · intro h1 h2
    simp [getRegistry, strTruthy, h1, h2]
  · intro h
    simp [getRegistry, strTruthy, h]

/-- A demonstration `new URL` oracle: every string parses except `"bad://"`
and the empty string (on which `new URL` throws). -/
def demoParseURL : String → Option Url :=
  fun s => if s = "bad://" ∨ s = "" then none else some ⟨s⟩

/-- A demonstration validator configuration with one named registry and no
source replacement. -/
def demoConfig : ValidatorConfig :=
  ⟨CRATES_IO_INDEX, CRATES_IO_CACHE,
    [⟨"alt", "https://alt.example/", none, none, none⟩], none⟩

/-- C9 witness: named lookup succeeds and materialises, unknown names fail,
malformed index URLs fail naming registry and URL, an empty docs string is
skipped rather than parsed, and the default registry is returned when no name
is given. -/
theorem getRegistry_spec_witness :
    getRegistry demoParseURL (some "alt") demoConfig =
      parseRegistryConfig demoParseURL ⟨"alt", "https://alt.example/", none, none, none⟩ ∧
    parseRegistryConfig demoParseURL ⟨"alt", "https://alt.example/", none, none, none⟩ =
      .ok ⟨⟨"https://alt.example/"⟩, none, none, none⟩ ∧
    getRegistry demoParseURL (some "nope") demoConfig =
      .error (.unknownRegistry "nope") ∧
    parseRegistryConfig demoParseURL ⟨"bad", "bad://", none, none, none⟩ =
      .error (.invalidIndexUrl "bad" "bad://") ∧
    parseRegistryConfig demoParseURL
        ⟨"edocs", "https://e.example/", none, some "", none⟩ =
      .ok ⟨⟨"https://e.example/"⟩, none, none, none⟩ ∧
    parseRegistryConfig demoParseURL
        ⟨"bdocs", "https://b.example/", none, some "bad://", none⟩ =
      .error (.invalidDocsUrl "bdocs" "bad://") ∧
    getRegistry demoParseURL none demoConfig =
      .ok ⟨CRATES_IO_INDEX, some CRATES_IO_CACHE, some DOCS_RS_URL, none⟩ := by
  refine ⟨?_, ?_, ?_, ?_, ?_, ?_, ?_⟩
  · exact (getRegistry_spec demoParseURL demoConfig "alt"
      ⟨"alt", "https://alt.example/", none, none, none⟩ ⟨"", none⟩ ⟨""⟩ ⟨""⟩ "").1
      (by decide) (by decide)
  · exact (getRegistry_spec demoParseURL demoConfig "alt"
      ⟨"alt", "https://alt.example/", none, none, none⟩ ⟨"", none⟩
      ⟨"https://alt.example/"⟩ ⟨""⟩ "").2.2.2.1 (by decide) rfl
  · exact (getRegistry_spec demoParseURL demoConfig "nope"
      ⟨"alt", "https://alt.example/", none, none, none⟩ ⟨"", none⟩ ⟨""⟩ ⟨""⟩ "").2.1
      (by decide) (by decide)
  · exact (getRegistry_spec demoParseURL demoConfig "alt"
      ⟨"bad", "bad://", none, none, none⟩ ⟨"", none⟩ ⟨""⟩ ⟨""⟩ "").2.2.1 (by decide)
  · exact (getRegistry_spec demoParseURL demoConfig "alt"
      ⟨"edocs", "https://e.example/", none, some "", none⟩ ⟨"", none⟩
      ⟨"https://e.example/"⟩ ⟨""⟩ "").2.2.2.2.1 (by decide) rfl
  · exact (getRegistry_spec demoParseURL demoConfig "alt"
      ⟨"bdocs", "https://b.example/", none, some "bad://", none⟩ ⟨"", none⟩
      ⟨"https://b.example/"⟩ ⟨""⟩ "bad://").2.2.2.2.2.1 (by decide) rfl
      (by decide) (by decide)
  · exact (getRegistry_spec demoParseURL demoConfig "alt"
      ⟨"alt", "https://alt.example/", none, none, none⟩ ⟨"", none⟩ ⟨""⟩ ⟨""⟩
      "").2.2.2.2.2.2.2.2.2 rfl
/-! ### Source dependency resolution (src/core/source.ts).  The effectful
collaborators — subprocess execution (`git archive | tar -xO`), HTTP fetch,
TOML extraction (which wraps the external `toml-eslint-parser`), CLI tool
probing and the filesystem walk of path dependencies — are supplied as an
environment of oracles; the control flow around them is translated from the
source. -/

/-- Embedding of `CliToolsAvailability` (probed once per process). -/
structure CliTools where
  git : Bool
  sh : Bool
  tar : Bool
deriving DecidableEq, Repr

/-- Provider type of a custom git host. -/
inductive HostType where
  | github
  | gitlab
deriving DecidableEq, Repr

/-- Embedding of `CustomGitHost` configuration entry. -/
structure CustomGitHost where
  host : String
  hostType : HostType
  token : Option String
deriving DecidableEq, Repr

/-- Embedding of `GitRawUrlResult` (src/core/source.ts). -/
structure GitRawUrlResult where
  url : String
  token : Option String
deriving DecidableEq, Repr

/-- Embedding of `CargoTomlVersionInfo` (src/core/source.ts). -/
structure CargoTomlInfo where
  version : Option SemVer
  workspaceMembers : Option (List String)
  workspaceVersion : Option SemVer
  usesWorkspaceVersion : Bool
deriving DecidableEq, Repr

/-- Errors produced during source resolution, carrying the data interpolated
into the real error messages. -/
inductive SrcErr where
  | missingCliTools (gitUrl : String)
  | gitCliFailed (gitUrl : String)
  | unsupportedHost (gitUrl : String)
  | httpFetchFailed
  | noVersionInRepo (gitUrl : String)
  | pathNoVersion (path : String)
deriving DecidableEq, Repr

/-- Embedding of `SourceResolution` (src/core/source.ts). -/
structure SourceResolution where
  version : Option SemVer
  error : Option SrcErr
deriving DecidableEq, Repr

/-- Environment of effectful collaborators: `exec url ref path` is the archive
pipeline's stdout (`none` when the subprocess fails), `http url` is the
response body when `response.ok` (`none` otherwise), `extract` is
`extractCargoTomlInfo`, `extractName` is `extractPackageName`, and
`resolvePath` stands for the filesystem-bound `resolvePathVersion`. -/
structure GitEnv where
  tools : CliTools
  exec : String → String → String → Option String
  http : String → Option String
  extract : String → CargoTomlInfo
  extractName : String → Option String
  customHosts : List CustomGitHost
  resolvePath : String → String → String → SourceResolution

/-- One attempted position of the host regex `host[/:]([^/]+)\/([^/]+)`:
the literal host, then `/` or `:`, then two non-empty slash-free groups. -/
def hostMatchAt (needle s : List Char) : Option (String × String) :=
  if needle.isPrefixOf s then
    match s.drop needle.length with
    | c :: r2 =>
      if c = '/' ∨ c = ':' then
        let owner := r2.takeWhile (fun x => x ≠ '/')
        match r2.drop owner.length with
        | '/' :: r4 =>
          let repo := r4.takeWhile (fun x => x ≠ '/')
          if !owner.isEmpty && !repo.isEmpty then
            some (String.mk owner, String.mk repo)
          else none
        | _ => none
      else none
    | [] => none
  else none

/-- Unanchored scan of the host regex: first matching position wins. -/
def matchHostRepo (needle : List Char) : List Char → Option (String × String)
  | [] => none
  | c :: t =>
    match hostMatchAt needle (c :: t) with
    | some r => some r
    | none => matchHostRepo needle t

/-- Embedding of the `String.prototype.trim` builtin. -/
def jsTrim (s : String) : String := String.mk (jsTrimChars s.data)

/-- Drop a trailing `.git` from the repository URL
(`url.endsWith('.git') ? url.slice(0, -4) : url`). -/
def stripGitSuffix (s : String) : String :=
  if ".git".data.isSuffixOf s.data then String.mk (s.data.take (s.data.length - 4))
  else s

/-- First custom host whose (escaped, hence literal) host pattern matches. -/
def findCustomHostMatch : List CustomGitHost → String → Option (CustomGitHost × String × String)
  | [], _ => none
  | h :: t, url =>
    match matchHostRepo h.host.data url.data with
    | some (owner, repo) => some (h, owner, repo)
    | none => findCustomHostMatch t url

/-- Embedding of `buildGitRawUrl` (src/core/source.ts, lines 561-618): normalise the URL,
try custom hosts, then the well-known github.com/gitlab.com shapes. -/
def buildGitRawUrl (gitUrl ref filePath : String) (customHosts : List CustomGitHost) :
    Option GitRawUrlResult :=
  match findCustomHostMatch customHosts (stripGitSuffix (jsTrim gitUrl)) with
  | some (h, owner, repo) =>
    match h.hostType with
    | .github =>
      some ⟨"https://" ++ h.host ++ "/raw/" ++ owner ++ "/" ++ repo ++ "/" ++ ref
        ++ "/" ++ filePath, h.token⟩
    | .gitlab =>
      some ⟨"https://" ++ h.host ++ "/" ++ owner ++ "/" ++ repo ++ "/-/raw/" ++ ref
        ++ "/" ++ filePath, h.token⟩
  | none =>
    match matchHostRepo "github.com".data (stripGitSuffix (jsTrim gitUrl)).data with
    | some (owner, repo) =>
      some ⟨"https://raw.githubusercontent.com/" ++ owner ++ "/" ++ repo ++ "/" ++ ref
        ++ "/" ++ filePath, none⟩
    | none =>
      match matchHostRepo "gitlab.com".data (stripGitSuffix (jsTrim gitUrl)).data with
      | some (owner, repo) =>
        some ⟨"https://gitlab.com/" ++ owner ++ "/" ++ repo ++ "/-/raw/" ++ ref
          ++ "/" ++ filePath, none⟩
      | none => none

/-- Embedding of `getGitRawFileUrl`: crate-scoped path when a non-empty crate name is given,
root `Cargo.toml` otherwise. -/
def getGitRawFileUrl (gitUrl ref : String) (crateName : Option String)
    (customHosts : List CustomGitHost) : Option GitRawUrlResult :=
  buildGitRawUrl gitUrl ref
    (match crateName with
     | some c => if c ≠ "" then c ++ "/Cargo.toml" else "Cargo.toml"
     | none => "Cargo.toml")
    customHosts

/-- Embedding of `getGitRawFileUrlForPath`. -/
def getGitRawFileUrlForPath (gitUrl ref filePath : String)
    (customHosts : List CustomGitHost) : Option GitRawUrlResult :=
  buildGitRawUrl gitUrl ref filePath customHosts

/-- Evaluation of `info.version ?? (info.usesWorkspaceVersion ? info.workspaceVersion :
undefined)`. -/
def effectiveVersion (info : CargoTomlInfo) : Option SemVer :=
  match info.version with
  | some v => some v
  | none => if info.usesWorkspaceVersion then info.workspaceVersion else none

/-- The member variant resolving workspace inheritance against the enclosing
workspace's version. -/
def effectiveVersionW (info : CargoTomlInfo) (workspaceVersion : Option SemVer) :
    Option SemVer :=
  match info.version with
  | some v => some v
  | none => if info.usesWorkspaceVersion then workspaceVersion else none

/-- Evaluation of `member.replace('*', '')`: JavaScript string replace removes only the first
occurrence. -/
def removeFirstStar : List Char → List Char
  | [] => []
  | '*' :: t => t
  | c :: t => c :: removeFirstStar t

/-- Candidate member paths: a glob member has its first `*` removed and the
crate name appended, a literal member is kept as is. -/
def memberCandidatePaths (crateName : String) (members : List String) : List String :=
  members.map (fun m =>
    if m.data.contains '*' then String.mk (removeFirstStar m.data) ++ crateName else m)

/-- The per-path loop of `searchWorkspaceMembersHttp`. -/
def searchMembersHttpGo (env : GitEnv) (gitUrl ref crateName : String)
    (workspaceVersion : Option SemVer) : List String → SourceResolution
  | [] => ⟨none, none⟩
  | p :: rest =>
    match getGitRawFileUrlForPath gitUrl ref (p ++ "/Cargo.toml") env.customHosts with
    | none => searchMembersHttpGo env gitUrl ref crateName workspaceVersion rest
    | some ru =>
      match env.http ru.url with
      | none => searchMembersHttpGo env gitUrl ref crateName workspaceVersion rest
      | some content =>
        if env.extractName content = some crateName then
          match effectiveVersionW (env.extract content) workspaceVersion with
          | some v => ⟨some v, none⟩
          | none => searchMembersHttpGo env gitUrl ref crateName workspaceVersion rest
        else searchMembersHttpGo env gitUrl ref crateName workspaceVersion rest

/-- Embedding of `searchWorkspaceMembersHttp` (src/core/source.ts, lines 329-390). -/
def searchWorkspaceMembersHttp (env : GitEnv) (gitUrl ref crateName : String)
    (members : List String) (workspaceVersion : Option SemVer) : SourceResolution :=
  searchMembersHttpGo env gitUrl ref crateName workspaceVersion
    (memberCandidatePaths crateName members)

/-- Workspace-member handling shared by both fetch outcomes of `tryHttpFetch`:
search the members when present, otherwise (or when the search finds nothing)
fall through to the given error. -/
def httpNoDirectVersion (env : GitEnv) (gitUrl ref crateName : String)
    (info : CargoTomlInfo) (fallback : SrcErr) : SourceResolution :=
  match info.workspaceMembers with
  | some ms =>
    if !ms.isEmpty then
      match searchWorkspaceMembersHttp env gitUrl ref crateName ms info.workspaceVersion with
      | ⟨some v, e⟩ => ⟨some v, e⟩
      | ⟨none, _⟩ => ⟨none, some fallback⟩
    else ⟨none, some fallback⟩
  | none => ⟨none, some fallback⟩

/-- Embedding of `tryHttpFetch` (src/core/source.ts, lines 216-323): fetch the crate-scoped
raw `Cargo.toml`; on a non-OK response retry the repository root (when its raw
URL differs), extracting a version or searching workspace members from
whichever fetch succeeded. -/
def tryHttpFetch (env : GitEnv) (gitUrl ref crateName : String) : SourceResolution :=
  match getGitRawFileUrl gitUrl ref (some crateName) env.customHosts with
  | none => ⟨none, some (.unsupportedHost gitUrl)⟩
  | some ru =>
    match env.http ru.url with
    | some content =>
      match effectiveVersion (env.extract content) with
      | some v => ⟨some v, none⟩
      | none =>
        httpNoDirectVersion env gitUrl ref crateName (env.extract content)
          (.noVersionInRepo gitUrl)
    | none =>
      match getGitRawFileUrl gitUrl ref none env.customHosts with
      | some rru =>
        if rru.url ≠ ru.url then
          match env.http rru.url with
          | some content =>
            match effectiveVersion (env.extract content) with
            | some v => ⟨some v, none⟩
            | none =>
              httpNoDirectVersion env gitUrl ref crateName (env.extract content)
                .httpFetchFailed
          | none => ⟨none, some .httpFetchFailed⟩
        else ⟨none, some .httpFetchFailed⟩
      | none => ⟨none, some .httpFetchFailed⟩

/-- The per-path loop of `searchWorkspaceMembersGitArchive`. -/
def searchMembersArchiveGo (env : GitEnv) (gitUrl ref crateName : String)
    (workspaceVersion : Option SemVer) : List String → SourceResolution
  | [] => ⟨none, none⟩
  | p :: rest =>
    match env.exec gitUrl ref (p ++ "/Cargo.toml") with
    | none => searchMembersArchiveGo env gitUrl ref crateName workspaceVersion rest
    | some content =>
      if env.extractName content = some crateName then
        match effectiveVersionW (env.extract content) workspaceVersion with
        | some v => ⟨some v, none⟩
        | none => searchMembersArchiveGo env gitUrl ref crateName workspaceVersion rest
      else searchMembersArchiveGo env gitUrl ref crateName workspaceVersion rest

/-- Embedding of `searchWorkspaceMembersGitArchive` (src/core/source.ts, lines 499-547). -/
def searchWorkspaceMembersGitArchive (env : GitEnv) (gitUrl ref crateName : String)
    (members : List String) (workspaceVersion : Option SemVer) : SourceResolution :=
  searchMembersArchiveGo env gitUrl ref crateName workspaceVersion
    (memberCandidatePaths crateName members)

/-- The path loop of `tryGitArchive`: run the archive pipeline per candidate
path, extract a direct or workspace version, and on failure try the next
path. -/
def tryGitArchiveGo (env : GitEnv) (gitUrl ref crateName : String) :
    List String → SourceResolution
  | [] => ⟨none, none⟩
  | p :: rest =>
    match env.exec gitUrl ref p with
    | none => tryGitArchiveGo env gitUrl ref crateName rest
    | some content =>
      match effectiveVersion (env.extract content) with
      | some v => ⟨some v, none⟩
      | none =>
        match (env.extract content).workspaceMembers with
        | some ms =>
          if !ms.isEmpty then
            match searchWorkspaceMembersGitArchive env gitUrl ref crateName ms
                (env.extract content).workspaceVersion with
            | ⟨some v, e⟩ => ⟨some v, e⟩
            | ⟨none, _⟩ => tryGitArchiveGo env gitUrl ref crateName rest
          else tryGitArchiveGo env gitUrl ref crateName rest
        | none => tryGitArchiveGo env gitUrl ref crateName rest

/-- Embedding of `tryGitArchive` (src/core/source.ts, lines 449-494): the crate-scoped
`Cargo.toml` first, then the root one. -/
def tryGitArchive (env : GitEnv) (gitUrl ref crateName : String) : SourceResolution :=
  tryGitArchiveGo env gitUrl ref crateName
    (if crateName ≠ "" then [crateName ++ "/Cargo.toml", "Cargo.toml"] else ["Cargo.toml"])

/-- Embedding of `tryGitCliFetch` (src/core/source.ts, lines 395-423): fail immediately with
a diagnostic error when git, sh or tar is unavailable; otherwise run the
archive strategy, supplying a default error when it found nothing. -/
def tryGitCliFetch (env : GitEnv) (gitUrl ref crateName : String) : SourceResolution :=
  if env.tools.git && env.tools.sh && env.tools.tar then
    if (tryGitArchive env gitUrl ref crateName).version.isSome then
      tryGitArchive env gitUrl ref crateName
    else
      ⟨none, some
        (match (tryGitArchive env gitUrl ref crateName).error with
         | some e => e
         | none => .gitCliFailed gitUrl)⟩
  else ⟨none, some (.missingCliTools gitUrl)⟩

/-- Evaluation of `rev || tag || branch || 'HEAD'` (JavaScript truthiness: absent and empty
strings fall through). -/
def resolveRef (branch tag rev : Option String) : String :=
  if strTruthy rev then rev.getD ""
  else if strTruthy tag then tag.getD ""
  else if strTruthy branch then branch.getD ""
  else "HEAD"

/-- The strategy chain of `resolveGitVersion` at a fixed ref: CLI first, HTTP
second, then whichever produced the more informative error. -/
def gitResolveWithRef (env : GitEnv) (gitUrl crateName ref : String) : SourceResolution :=
  if (tryGitCliFetch env gitUrl ref crateName).version.isSome then
    tryGitCliFetch env gitUrl ref crateName
  else if (tryHttpFetch env gitUrl ref crateName).version.isSome then
    tryHttpFetch env gitUrl ref crateName
  else if (tryGitCliFetch env gitUrl ref crateName).error.isSome then
    tryGitCliFetch env gitUrl ref crateName
  else tryHttpFetch env gitUrl ref crateName

/-- Embedding of `resolveGitVersion` (src/core/source.ts, lines 168-197). -/
def resolveGitVersion (env : GitEnv) (gitUrl crateName : String)
    (branch tag rev : Option String) : SourceResolution :=
  gitResolveWithRef env gitUrl crateName (resolveRef branch tag rev)

/-- Embedding of `DependencySource` (src/core/types.ts): registry, path or git variant. -/
inductive DependencySource where
  | registry (name : Option String)
  | path (p : String)
  | git (url : String) (branch tag rev : Option String)
deriving DecidableEq, Repr

/-- Embedding of `resolveSourceVersion` (src/core/source.ts, lines 75-94): registry sources
resolve to no version immediately; path sources read the filesystem (modelled
by the environment's oracle); git sources run the two-strategy chain. -/
def resolveSourceVersion (env : GitEnv) (source : DependencySource)
    (crateName cargoTomlDir : String) : SourceResolution :=
  match source with
  | .registry _ => ⟨none, none⟩
  | .path p => env.resolvePath p crateName cargoTomlDir
  | .git url branch tag rev => resolveGitVersion env url crateName branch tag rev
/-- C7: when the CLI archive strategy fails for lack of external tools and the
HTTP strategy's crate-scoped fetch is non-OK but the repository-root fetch
succeeds with a manifest carrying a version, `resolveSourceVersion` returns
that root version with no error. -/
theorem resolveGitVersion_http_root_fallback (env : GitEnv)
    (gitUrl crateName cargoTomlDir : String) (branch tag rev : Option String)
    (r1 r2 : GitRawUrlResult) (body : String) (v : SemVer)
    (h1 : (env.tools.git && env.tools.sh && env.tools.tar) = false)
    (h2 : getGitRawFileUrl gitUrl (resolveRef branch tag rev) (some crateName)
      env.customHosts = some r1)
    (h3 : env.http r1.url = none)
    (h4 : getGitRawFileUrl gitUrl (resolveRef branch tag rev) none
      env.customHosts = some r2)
    (h5 : r2.url ≠ r1.url)
    (h6 : env.http r2.url = some body)
    (h7 : (env.extract body).version = some v) :
    resolveSourceVersion env (.git gitUrl branch tag rev) crateName cargoTomlDir =
      ⟨some v, none⟩ := by
  have hcli : tryGitCliFetch env gitUrl (resolveRef branch tag rev) crateName =
      ⟨none, some (.missingCliTools gitUrl)⟩ := by
    unfold tryGitCliFetch
    rw [if_neg (by simp [h1])]
  have heff : effectiveVersion (env.extract body) = some v := by
    unfold effectiveVersion
    rw [h7]
  have hhttp : tryHttpFetch env gitUrl (resolveRef branch tag rev) crateName =
      ⟨some v, none⟩ := by
    unfold tryHttpFetch
    rw [h2]
    simp [h3, h4, h5, h6, heff]
  show gitResolveWithRef env gitUrl crateName (resolveRef branch tag rev) = ⟨some v, none⟩
  simp [gitResolveWithRef, hcli, hhttp]

/-- A demonstration environment for scenario D: no CLI tools, and an HTTP
server that answers only for the repository-root raw `Cargo.toml`. -/
def demoGitEnv : GitEnv :=
  { tools := ⟨false, true, true⟩
    exec := fun _ _ _ => none
    http := fun u =>
      if u = "https://raw.githubusercontent.com/o/r/HEAD/Cargo.toml" then some "ROOT"
      else none
    extract := fun s =>
      if s = "ROOT" then ⟨some ⟨1, 0, 0, [], []⟩, none, none, false⟩
      else ⟨none, none, none, false⟩
    extractName := fun _ => none
    customHosts := []
    resolvePath := fun _ _ _ => ⟨none, none⟩ }

/-- C7 witness: a github dependency with missing CLI tools resolves to the root
manifest's version `1.0.0` with no error after the crate-scoped path misses. -/
theorem resolveGitVersion_http_root_fallback_witness :
    resolveSourceVersion demoGitEnv (.git "https://github.com/o/r" none none none)
      "mycrate" "/work" = ⟨some ⟨1, 0, 0, [], []⟩, none⟩ := by
  exact resolveGitVersion_http_root_fallback demoGitEnv "https://github.com/o/r"
    "mycrate" "/work" none none none
    ⟨"https://raw.githubusercontent.com/o/r/HEAD/mycrate/Cargo.toml", none⟩
    ⟨"https://raw.githubusercontent.com/o/r/HEAD/Cargo.toml", none⟩
    "ROOT" ⟨1, 0, 0, [], []⟩
    rfl (by decide) (by decide) (by decide) (by decide) (by decide) (by decide)

/-! ### Source-dependency validation (src/core/validate.ts:
`validateSourceDependency`).  The awaited resolution and the lockfile lookup
result (`getLocked`, whose lockfile reader lives outside this core) are
supplied as inputs. -/

/-- Error attached to a validation result. -/
inductive ValErr where
  | sourceError (e : SrcErr)
  | sourceMismatch (v : SemVer) (raw : Option String)
deriving DecidableEq, Repr

/-- Embedding of `DependencyValidationResult` (src/core/types.ts). -/
structure DependencyValidationResult where
  resolved : Option SemVer
  latestStable : Option SemVer
  latest : Option SemVer
  locked : Option SemVer
  status : DependencyStatus
  error : Option ValErr
deriving DecidableEq, Repr

/-- Embedding of `validateSourceDependency` (src/core/validate.ts, lines 210-269): when the
resolution failed or produced no version the result is an error (or a display
`latest` when a version came with the failure); a cleanly resolved version is
checked against the declared requirement when there is one, and is otherwise
reported as `latest` unconditionally. -/
def validateSourceDependency (sourceResolution : SourceResolution)
    (depVersion : Option SemverRange) (depVersionRaw : Option String)
    (locked : Option SemVer) : DependencyValidationResult :=
  match sourceResolution.version, sourceResolution.error with
  | some v, none =>
    (match depVersion with
     | some rng =>
       if rangeTest rng v then ⟨some v, some v, some v, locked, .latest, none⟩
       else
         ⟨none, some v, some v, locked, .error,
           some (.sourceMismatch v depVersionRaw)⟩
     | none => ⟨some v, some v, some v, none, .latest, none⟩)
  | version, err =>
    ⟨version, version, version, locked,
      if version.isSome then .latest else .error, err.map .sourceError⟩

/-- C8: for a source dependency whose resolution produced a version (and no
error), a declared requirement yields status `latest` with no error exactly
when the resolved version satisfies it and otherwise status `error` with the
mismatch message naming the version and the raw requirement; `latestStable`
and `latest` are the resolved version in both cases; without a declared
requirement the status is unconditionally `latest`. -/
theorem validateSourceDependency_spec (v : SemVer) (rng : SemverRange)
    (raw : Option String) (locked : Option SemVer) :
    (rangeTest rng v = true →
      validateSourceDependency ⟨some v, none⟩ (some rng) raw locked =
        ⟨some v, some v, some v, locked, .latest, none⟩) ∧
    (rangeTest rng v = false →
      validateSourceDependency ⟨some v, none⟩ (some rng) raw locked =
        ⟨none, some v, some v, locked, .error, some (.sourceMismatch v raw)⟩) ∧
    (validateSourceDependency ⟨some v, none⟩ none raw locked =
      ⟨some v, some v, some v, none, .latest, none⟩) := by
  refine ⟨?_, ?_, rfl⟩
  · intro h
    simp [validateSourceDependency, h]
  · intro h
    simp [validateSourceDependency, h]

/-- C8 witness: source version `1.5.0` satisfies `^1.2.3` and is `latest`;
source version `3.0.0` misses it and is an `error` carrying the mismatch. -/
theorem validateSourceDependency_spec_witness :
    validateSourceDependency ⟨some ⟨1, 5, 0, [], []⟩, none⟩ (some caretOneTwoThree)
      (some "1.2.3") none =
      ⟨some ⟨1, 5, 0, [], []⟩, some ⟨1, 5, 0, [], []⟩, some ⟨1, 5, 0, [], []⟩, none,
        .latest, none⟩ ∧
    validateSourceDependency ⟨some ⟨3, 0, 0, [], []⟩, none⟩ (some caretOneTwoThree)
      (some "1.2.3") none =
      ⟨none, some ⟨3, 0, 0, [], []⟩, some ⟨3, 0, 0, [], []⟩, none, .error,
        some (.sourceMismatch ⟨3, 0, 0, [], []⟩ (some "1.2.3"))⟩ := by
  constructor
  · exact (validateSourceDependency_spec ⟨1, 5, 0, [], []⟩ caretOneTwoThree
      (some "1.2.3") none).1 (by decide)
  · exact (validateSourceDependency_spec ⟨3, 0, 0, [], []⟩ caretOneTwoThree
      (some "1.2.3") none).2.1 (by decide)
